import Mathlib

/-!
Verification of the task-scheduling core of the `rtl_agent_system` repository
(`core/base.py`, `agents/supervisor.py`, `analysis/log_analyzer.py`,
`main.py`) against its natural-language specification.

The Python code is shallowly embedded: dataclasses become structures or
(where recursive) inductives, Python `Dict` becomes an association list,
Python `set` becomes a duplicate-free list, `datetime` values are
represented by their ISO-8601 string (so `isoformat`/`fromisoformat` is the
identity on the representation), `uuid`-generated identifiers and
`datetime.now()` are caller-supplied parameters, and a worker that may
raise is a function into `Except String`.  The `while` loop of
`DynamicRouter.execute_plan` is embedded with explicit fuel; the fuel
`plan.tasks.length + 1` is proved sufficient, so reaching `none` is proved
impossible and loop termination is a theorem, not an assumption.
-/

namespace RTLAgent

/-- Embeds `TaskType` from `core/base.py` (six members, each with a string
`value`). -/
inductive TaskType where
  | rtl_modification
  | script_tuning
  | verification
  | timing_analysis
  | power_optimization
  | debug
deriving DecidableEq

/-- Embeds the `.value` payload of each `TaskType` member. -/
def TaskType.value : TaskType → String
  | .rtl_modification => "rtl_modification"
  | .script_tuning => "script_tuning"
  | .verification => "verification"
  | .timing_analysis => "timing_analysis"
  | .power_optimization => "power_optimization"
  | .debug => "debug"

/-- Embeds Python `str(t)` for a `TaskType` enum member
(`"TaskType.RTL_MODIFICATION"` style), as used by f-strings in error
messages. -/
def TaskType.pyStr : TaskType → String
  | .rtl_modification => "TaskType.RTL_MODIFICATION"
  | .script_tuning => "TaskType.SCRIPT_TUNING"
  | .verification => "TaskType.VERIFICATION"
  | .timing_analysis => "TaskType.TIMING_ANALYSIS"
  | .power_optimization => "TaskType.POWER_OPTIMIZATION"
  | .debug => "TaskType.DEBUG"

/-- Embeds `TaskStatus` from `core/base.py`. -/
inductive TaskStatus where
  | pending
  | in_progress
  | completed
  | failed
  | needs_review
deriving DecidableEq

/-- Embeds the `.value` payload of each `TaskStatus` member. -/
def TaskStatus.value : TaskStatus → String
  | .pending => "pending"
  | .in_progress => "in_progress"
  | .completed => "completed"
  | .failed => "failed"
  | .needs_review => "needs_review"

/-- Embeds a Python JSON-like value (the `Any` side of the `Dict[str, Any]`
fields of the dataclasses): strings, integers, booleans, `None`, lists and
string-keyed dicts (a dict is an association list, preserving insertion
order as Python dicts do). -/
inductive PyValue where
  | str (s : String)
  | int (n : Int)
  | bool (b : Bool)
  | none
  | list (xs : List PyValue)
  | dict (kvs : List (String × PyValue))

/-- Embeds the `Task` dataclass of `core/base.py`.  `sub_tasks` is a nested
list of tasks, so `Task` is a (nested) inductive rather than a structure.
`created_at : datetime` is represented by its ISO-8601 string. -/
inductive Task where
  | mk
    (task_id : String)
    (task_type : TaskType)
    (description : String)
    (status : TaskStatus)
    (priority : Int)
    (context : List (String × PyValue))
    (results : List (String × PyValue))
    (sub_tasks : List Task)
    (created_at : String)
    (metadata : List (String × PyValue))

def Task.task_id : Task → String
  | .mk i _ _ _ _ _ _ _ _ _ => i

def Task.task_type : Task → TaskType
  | .mk _ ty _ _ _ _ _ _ _ _ => ty

def Task.description : Task → String
  | .mk _ _ d _ _ _ _ _ _ _ => d

def Task.status : Task → TaskStatus
  | .mk _ _ _ st _ _ _ _ _ _ => st

def Task.priority : Task → Int
  | .mk _ _ _ _ pr _ _ _ _ _ => pr

def Task.context : Task → List (String × PyValue)
  | .mk _ _ _ _ _ c _ _ _ _ => c

def Task.results : Task → List (String × PyValue)
  | .mk _ _ _ _ _ _ r _ _ _ => r

def Task.sub_tasks : Task → List Task
  | .mk _ _ _ _ _ _ _ s _ _ => s

def Task.created_at : Task → String
  | .mk _ _ _ _ _ _ _ _ c _ => c

def Task.metadata : Task → List (String × PyValue)
  | .mk _ _ _ _ _ _ _ _ _ m => m

/-- Builds a `Task` the way the dataclass constructor is called throughout
the source: `task_id`, `task_type`, `description` and `context` explicit,
every other field left at its dataclass default (`status=PENDING`,
`priority=5`, empty mappings and sub-task list), with the creation
timestamp supplied by the caller (Python: `datetime.now()`). -/
def Task.make (task_id : String) (task_type : TaskType) (description : String)
    (context : List (String × PyValue)) (created_at : String) : Task :=
  .mk task_id task_type description .pending 5 context [] [] created_at []

/-- Embeds the `AnalysisResult` dataclass of `core/base.py`; the `timestamp`
is the ISO-8601 string of the `datetime`. -/
structure AnalysisResult where
  success : Bool
  summary : String
  details : List (String × PyValue)
  errors : List String
  warnings : List String
  recommendations : List String
  timestamp : String

/-- Embeds the `ExecutionPlan` dataclass of `core/base.py`; `dependencies`
is the `Dict[str, List[str]]` mapping a task id to its prerequisite ids. -/
structure ExecutionPlan where
  plan_id : String
  tasks : List Task
  dependencies : List (String × List String)
  estimated_duration : Option Int
  metadata : List (String × PyValue)

/-- Ids of the tasks of a plan, in plan order. -/
def ExecutionPlan.taskIds (p : ExecutionPlan) : List String :=
  p.tasks.map Task.task_id

/-- Embeds `self.dependencies.get(task_id, [])` from
`ExecutionPlan.get_next_tasks`. -/
def ExecutionPlan.depsOf (p : ExecutionPlan) (id : String) : List String :=
  (p.dependencies.lookup id).getD []

/-- Embeds `ExecutionPlan.get_next_tasks` (`core/base.py` lines 70-79): the
tasks, in plan order, that are not yet completed and whose entire
prerequisite list is inside the completed set. -/
def ExecutionPlan.get_next_tasks (p : ExecutionPlan) (completed : List String) : List Task :=
  p.tasks.filter fun t =>
    !completed.contains t.task_id &&
      (p.depsOf t.task_id).all fun d => completed.contains d

/-- Embeds the `agent_registry : Dict[TaskType, Agent]` of `DynamicRouter`
together with the behaviour of each registered agent: `none` means no agent
is registered for the type (`route` raises `ValueError`); a registered
agent's `process` either returns a result (`Except.ok`) or raises a fault
whose `str` is the carried string (`Except.error`). -/
def Registry : Type :=
  TaskType → Option (Task → Except String AnalysisResult)

/-- Message of the `ValueError` raised by `DynamicRouter.route` when no
agent is registered for the task's type (`supervisor.py` line 345). -/
def noCapMsg (t : Task) : String :=
  "No agent registered for task type: " ++ t.task_type.pyStr

/-- Embeds the failed `AnalysisResult` synthesized by the `except` branch of
`DynamicRouter._execute_task` (`supervisor.py` lines 388-394) for a fault
whose `str` is `e`; `now` is the `datetime.now()` default timestamp. -/
def faultResult (now e : String) : AnalysisResult :=
  { success := false
    summary := "Execution failed: " ++ e
    details := [("exception", PyValue.str e)]
    errors := [e]
    warnings := []
    recommendations := []
    timestamp := now }

/-- Embeds `DynamicRouter._execute_task` (`supervisor.py` lines 382-394):
route to the registered agent and run it; a missing registration or a
raised fault is caught and converted into a failed result, so the function
is total. -/
def execTask (reg : Registry) (now : String) (t : Task) : AnalysisResult :=
  match reg t.task_type with
  | Option.none => faultResult now (noCapMsg t)
  | Option.some w =>
    match w t with
    | Except.ok r => r
    | Except.error e => faultResult now e

/-- One record per executed task of `DynamicRouter.execute_plan`'s inner
`for task, result in zip(next_tasks, task_results)` loop (`supervisor.py`
lines 367-378): the task, the result appended to `results`, and the status
written into `task.status`. -/
structure SchedEntry where
  task : Task
  result : AnalysisResult
  status : TaskStatus

/-- Embeds `completed.add(task_id)` for the Python `set`: the completed set
is a duplicate-free list, so an id already present is not added again and
`List.length` is the Python `len`. -/
def addCompleted (c : List String) (id : String) : List String :=
  if id ∈ c then c else c ++ [id]

/-- Embeds the batch bookkeeping of one frontier: every executed task's id
is added to the completed set, in frontier order. -/
def addFrontier (c : List String) (ts : List Task) : List String :=
  ts.foldl (fun acc t => addCompleted acc t.task_id) c

/-- Runs one frontier task and records the status assignment of
`supervisor.py` line 378 (`COMPLETED` if `result.success` else `FAILED`). -/
def runEntry (reg : Registry) (now : String) (t : Task) : SchedEntry :=
  let r := execTask reg now t
  { task := t, result := r
    status := if r.success then TaskStatus.completed else TaskStatus.failed }

/-- Embeds the `while len(completed) < len(plan.tasks)` loop of
`DynamicRouter.execute_plan` (`supervisor.py` lines 348-380) with explicit
fuel.  `none` means the fuel ran out (proved unreachable for fuel
`plan.tasks.length + 1`); `some (completed, log)` is a normal exit, either
through the loop guard or through the `break` taken when the frontier is
empty (the stall case).  `asyncio.gather` preserves list order, so the
batch results are appended in frontier order. -/
def schedLoop (reg : Registry) (now : String) (plan : ExecutionPlan) :
    Nat → List String → List SchedEntry → Option (List String × List SchedEntry)
  | 0, _, _ => Option.none
  | fuel + 1, completed, log =>
    if completed.length < plan.tasks.length then
      match plan.get_next_tasks completed with
      | [] => Option.some (completed, log)
      | t :: ts =>
        schedLoop reg now plan fuel (addFrontier completed (t :: ts))
          (log ++ (t :: ts).map (runEntry reg now))
    else
      Option.some (completed, log)

/-- Runs the scheduler loop with the fuel proved sufficient below. -/
def schedRun (reg : Registry) (now : String) (plan : ExecutionPlan) :
    Option (List String × List SchedEntry) :=
  schedLoop reg now plan (plan.tasks.length + 1) [] []

/-- Final contents of the `completed` id set of `execute_plan`. -/
def schedCompleted (reg : Registry) (now : String) (plan : ExecutionPlan) : List String :=
  ((schedRun reg now plan).getD ([], [])).1

/-- Execution log of `execute_plan`: one entry per executed task, in
execution order. -/
def schedLog (reg : Registry) (now : String) (plan : ExecutionPlan) : List SchedEntry :=
  ((schedRun reg now plan).getD ([], [])).2

/-- Ids of the executed tasks, in execution order. -/
def schedExecutedIds (reg : Registry) (now : String) (plan : ExecutionPlan) : List String :=
  (schedLog reg now plan).map fun e => e.task.task_id

/-- Embeds the return value of `DynamicRouter.execute_plan`: the bare list
of per-task results, in completion order.  The Python return type carries
nothing besides this list. -/
def execute_plan (reg : Registry) (now : String) (plan : ExecutionPlan) :
    List AnalysisResult :=
  (schedLog reg now plan).map fun e => e.result

/-- Embeds `SupervisorAgent._plan_timing_analysis` (`supervisor.py` lines
140-185): a four-step chain of sub-tasks whose ids are the parent id plus a
fixed suffix, each depending exactly on its predecessor. -/
def planTimingAnalysis (task : Task) (now : String) :
    List Task × List (String × List String) :=
  let t1 := Task.make (task.task_id ++ "_kg_load") TaskType.verification
    "Load module context from Knowledge Graph"
    [("target_modules", ((task.context.lookup "target_modules").getD (PyValue.list [])))] now
  let t2 := Task.make (task.task_id ++ "_gen_script") TaskType.script_tuning
    "Generate PrimeTime timing analysis script" [("tool", PyValue.str "PrimeTime")] now
  let t3 := Task.make (task.task_id ++ "_run_sta") TaskType.timing_analysis
    "Run static timing analysis" [("tool", PyValue.str "PrimeTime")] now
  let t4 := Task.make (task.task_id ++ "_analyze") TaskType.debug
    "Analyze timing violations and suggest fixes" [] now
  ([t1, t2, t3, t4],
   [(t1.task_id, []), (t2.task_id, [t1.task_id]), (t3.task_id, [t2.task_id]),
    (t4.task_id, [t3.task_id])])

/-- Embeds `SupervisorAgent._plan_rtl_modification` (`supervisor.py` lines
187-222): a three-step chain. -/
def planRtlModification (task : Task) (now : String) :
    List Task × List (String × List String) :=
  let t1 := Task.make (task.task_id ++ "_analyze_rtl") TaskType.verification
    "Analyze RTL code structure" task.context now
  let t2 := Task.make (task.task_id ++ "_gen_fix") TaskType.rtl_modification
    "Generate RTL modifications" task.context now
  let t3 := Task.make (task.task_id ++ "_lint") TaskType.verification
    "Run lint check on modified RTL" [("tool", PyValue.str "SpyGlass")] now
  ([t1, t2, t3],
   [(t1.task_id, []), (t2.task_id, [t1.task_id]), (t3.task_id, [t2.task_id])])

/-- Embeds `SupervisorAgent._plan_script_tuning` (`supervisor.py` lines
224-247): a two-step chain. -/
def planScriptTuning (task : Task) (now : String) :
    List Task × List (String × List String) :=
  let t1 := Task.make (task.task_id ++ "_load_template") TaskType.verification
    "Load script template" task.context now
  let t2 := Task.make (task.task_id ++ "_optimize") TaskType.script_tuning
    "Optimize script parameters" task.context now
  ([t1, t2], [(t1.task_id, []), (t2.task_id, [t1.task_id])])

/-- Embeds `SupervisorAgent._plan_verification` (`supervisor.py` lines
249-263): a single task. -/
def planVerification (task : Task) (now : String) :
    List Task × List (String × List String) :=
  let t1 := Task.make (task.task_id ++ "_verify") TaskType.verification
    "Run verification checks" task.context now
  ([t1], [(t1.task_id, [])])

/-- Embeds `SupervisorAgent._plan_power_optimization` (`supervisor.py`
lines 265-280): a single task. -/
def planPowerOptimization (task : Task) (now : String) :
    List Task × List (String × List String) :=
  let t1 := Task.make (task.task_id ++ "_power_analysis") TaskType.power_optimization
    "Analyze power consumption" task.context now
  ([t1], [(t1.task_id, [])])

/-- Embeds `SupervisorAgent._plan_debug` (`supervisor.py` lines 282-305):
a two-step chain. -/
def planDebug (task : Task) (now : String) :
    List Task × List (String × List String) :=
  let t1 := Task.make (task.task_id ++ "_identify_issue") TaskType.debug
    "Identify root cause" task.context now
  let t2 := Task.make (task.task_id ++ "_suggest_fix") TaskType.debug
    "Suggest fixes" task.context now
  ([t1, t2], [(t1.task_id, []), (t2.task_id, [t1.task_id])])

/-- Embeds `SupervisorAgent.create_execution_plan` (`supervisor.py` lines
94-138).  The `uuid`-generated `plan_id` and the `datetime.now()` timestamp
are caller-supplied; the dispatch on the task's type is the `if/elif`
chain of the source, with `DEBUG` as the `else` branch. -/
def create_execution_plan (task : Task) (planId now : String) : ExecutionPlan :=
  let sd :=
    match task.task_type with
    | TaskType.timing_analysis => planTimingAnalysis task now
    | TaskType.rtl_modification => planRtlModification task now
    | TaskType.script_tuning => planScriptTuning task now
    | TaskType.verification => planVerification task now
    | TaskType.power_optimization => planPowerOptimization task now
    | TaskType.debug => planDebug task now
  { plan_id := planId
    tasks := sd.1
    dependencies := sd.2
    estimated_duration := Option.none
    metadata := [("parent_task_id", PyValue.str task.task_id),
                 ("created_at", PyValue.str now)] }

/-- Sub-task ids produced by the planner for a root task, in plan order. -/
def planSubTaskIds (task : Task) (planId now : String) : List String :=
  (create_execution_plan task planId now).taskIds

/-- Fixed per-step id suffix list of each task type's planning template. -/
def planSuffixes : TaskType → List String
  | TaskType.timing_analysis => ["_kg_load", "_gen_script", "_run_sta", "_analyze"]
  | TaskType.rtl_modification => ["_analyze_rtl", "_gen_fix", "_lint"]
  | TaskType.script_tuning => ["_load_template", "_optimize"]
  | TaskType.verification => ["_verify"]
  | TaskType.power_optimization => ["_power_analysis"]
  | TaskType.debug => ["_identify_issue", "_suggest_fix"]

/-- Union of the per-type suffix lists, used for the disjointness proof. -/
def allPlanSuffixes : List String :=
  ["_kg_load", "_gen_script", "_run_sta", "_analyze", "_analyze_rtl", "_gen_fix",
   "_lint", "_load_template", "_optimize", "_verify", "_power_analysis",
   "_identify_issue", "_suggest_fix"]

/-- Strict sequential ("chain") dependency mapping over an id list: the
first id has no prerequisite, every later id has exactly the preceding id
as its prerequisite.  This is the shape §4.2 of the spec ascribes to every
planner template. -/
def chainDeps : String → List String → List (String × List String)
  | _, [] => []
  | prev, i :: rest => (i, [prev]) :: chainDeps i rest

/-- Chain dependencies for a whole id list (empty prerequisite list for the
head). -/
def chainDepsAll : List String → List (String × List String)
  | [] => []
  | i :: rest => (i, []) :: chainDeps i rest

/-- Embeds the message appended by `FeedbackLoop.run` when the fix callback
raises (`log_analyzer.py` line 444). -/
def fixFailMsg (e : String) : String :=
  "Fix callback failed: " ++ e

/-- Embeds the message appended by `FeedbackLoop.run` when the iteration
budget is exhausted (`log_analyzer.py` line 448). -/
def maxIterMsg (n : Int) : String :=
  "Max iterations (" ++ toString n ++ ") reached"

/-- One entry of `FeedbackLoop.iteration_history` (`log_analyzer.py` lines
425-430), with the result's field values at the moment the entry is
appended.  (In Python the entry stores `result.__dict__`, an alias of the
live attribute dict; the aliasing itself is part of the mutation analysis
of the immutability claim and is tracked through `FLRun.finalIdx`.) -/
structure FLEntry where
  iteration : Nat
  task_id : String
  result : AnalysisResult
  timestamp : String

/-- Fault raised by `FeedbackLoop.run` itself: with `max_iterations <= 0`
the `for` body never runs and line 448 reads the never-assigned local
`result`, raising `UnboundLocalError`. -/
inductive FLError where
  | unboundLocal
deriving DecidableEq

/-- Outcome of one `FeedbackLoop.run` call.  `finalIdx` records which
iteration produced the `AnalysisResult` object that `run` returns: every
`return` statement of the source returns the very object bound by
`result = await analysis_agent.process(...)` at some iteration (lines 434,
438, 445, 449), in the last two cases after appending to that object's
`errors` list in place.  Comparing the returned value with the history
entry of iteration `finalIdx` therefore observes exactly the in-place
mutation. -/
structure FLRun where
  outcome : Except FLError AnalysisResult
  history : List FLEntry
  finalIdx : Option Nat

/-- Embeds the `for iteration in range(self.max_iterations)` loop of
`FeedbackLoop.run` (`log_analyzer.py` lines 418-449).  `fuel` counts the
remaining iterations, `idx` is the current iteration number, and the
`Option (Nat × AnalysisResult)` argument models the Python local `result`
(unbound at entry), remembered together with the iteration that produced
it.  When the loop finishes without returning, line 448 appends the
budget-exhaustion marker to the last result — or raises
`UnboundLocalError` when no iteration ever ran. -/
def flRunFrom (process : Task → AnalysisResult)
    (fix : List String → Except String Task) (maxIt : Int) (now : String) :
    Nat → Nat → Task → Option (Nat × AnalysisResult) → List FLEntry → FLRun
  | 0, _, _, last, hist =>
    match last with
    | Option.none =>
      { outcome := Except.error FLError.unboundLocal, history := hist
        finalIdx := Option.none }
    | Option.some (k, r) =>
      { outcome := Except.ok { r with errors := r.errors ++ [maxIterMsg maxIt] }
        history := hist, finalIdx := Option.some k }
  | fuel + 1, idx, t, _, hist =>
    let r := process t
    let hist2 := hist ++
      [{ iteration := idx, task_id := t.task_id, result := r, timestamp := now }]
    if r.success then
      { outcome := Except.ok r, history := hist2, finalIdx := Option.some idx }
    else if r.recommendations.isEmpty then
      { outcome := Except.ok r, history := hist2, finalIdx := Option.some idx }
    else
      match fix r.recommendations with
      | Except.error e =>
        { outcome := Except.ok { r with errors := r.errors ++ [fixFailMsg e] }
          history := hist2, finalIdx := Option.some idx }
      | Except.ok t2 =>
        flRunFrom process fix maxIt now fuel (idx + 1) t2 (Option.some (idx, r)) hist2

/-- Embeds `FeedbackLoop.run` for a `FeedbackLoop(max_iterations)` instance
with an initially empty `iteration_history`.  `max_iterations` is an `Int`
(Python `int`); `range(n)` is empty for `n <= 0`, embedded via `Int.toNat`.
The analysis agent is modelled as returning a result (its own faults are
outside this loop's handling and would propagate in Python); the fix
callback may fault (`Except.error`), which line 443-445 catches. -/
def FeedbackLoop.run (maxIt : Int) (process : Task → AnalysisResult)
    (fix : List String → Except String Task) (task : Task) (now : String) : FLRun :=
  flRunFrom process fix maxIt now maxIt.toNat 0 task Option.none []

/-- Embeds `r.__dict__` for an `AnalysisResult`, as stored into the
`details` of the aggregate results (with the `datetime` rendered as its
ISO string, as everywhere in this embedding). -/
def AnalysisResult.pyDict (r : AnalysisResult) : PyValue :=
  PyValue.dict
    [("success", PyValue.bool r.success), ("summary", PyValue.str r.summary),
     ("details", PyValue.dict r.details),
     ("errors", PyValue.list (r.errors.map PyValue.str)),
     ("warnings", PyValue.list (r.warnings.map PyValue.str)),
     ("recommendations", PyValue.list (r.recommendations.map PyValue.str)),
     ("timestamp", PyValue.str r.timestamp)]

/-- Embeds the result aggregation of `SupervisorAgent.process`
(`supervisor.py` lines 307-325): overall success is the conjunction of the
per-task flags, the summary is the count-based string, and the
`AnalysisResult` constructor is called without `errors`, `warnings` or
`recommendations`, so those fields take their dataclass defaults (empty
lists). -/
def supervisorAggregate (planId now : String) (results : List AnalysisResult) :
    AnalysisResult :=
  { success := results.all fun r => r.success
    summary := "Completed " ++ toString results.length ++ " sub-tasks"
    details := [("plan_id", PyValue.str planId),
                ("results", PyValue.list (results.map AnalysisResult.pyDict))]
    errors := []
    warnings := []
    recommendations := []
    timestamp := now }

/-- Embeds the result aggregation of `RTLAgentSystem.execute_command`
(`main.py` lines 171-192): overall success is the conjunction of the
per-task flags, the summary is `"Executed N tasks"`, and the error,
warning and recommendation lists are the concatenations of the per-task
lists in completion order. -/
def mainAggregate (taskId planId now : String) (results : List AnalysisResult) :
    AnalysisResult :=
  { success := results.all fun r => r.success
    summary := "Executed " ++ toString results.length ++ " tasks"
    details := [("task_id", PyValue.str taskId), ("plan_id", PyValue.str planId),
                ("results", PyValue.list (results.map AnalysisResult.pyDict))]
    errors := results.flatMap fun r => r.errors
    warnings := results.flatMap fun r => r.warnings
    recommendations := results.flatMap fun r => r.recommendations
    timestamp := now }

mutual

/-- Embeds `Task.to_dict` (`core/base.py` lines 45-58): the dataclass as a
string-keyed record, enum fields via `.value`, the creation timestamp via
`isoformat()` (the identity on our string representation), and the nested
sub-tasks serialized recursively. -/
def Task.to_dict : Task → PyValue
  | .mk i ty d st pr ctx res subs created meta =>
    PyValue.dict
      [("task_id", PyValue.str i), ("task_type", PyValue.str ty.value),
       ("description", PyValue.str d), ("status", PyValue.str st.value),
       ("priority", PyValue.int pr), ("context", PyValue.dict ctx),
       ("results", PyValue.dict res),
       ("sub_tasks", PyValue.list (Task.listToDict subs)),
       ("created_at", PyValue.str created), ("metadata", PyValue.dict meta)]

/-- Serializes a list of tasks elementwise (the
`[st.to_dict() for st in self.sub_tasks]` comprehension). -/
def Task.listToDict : List Task → List PyValue
  | [] => []
  | t :: ts => t.to_dict :: Task.listToDict ts

end

/-- Modelled from the spec: the repository has no deserializer for
`TaskType` values; this is the inverse of the `.value` mapping of §3's
fixed task-type enumeration. -/
def TaskType.fromValue : String → Option TaskType
  | "rtl_modification" => Option.some TaskType.rtl_modification
  | "script_tuning" => Option.some TaskType.script_tuning
  | "verification" => Option.some TaskType.verification
  | "timing_analysis" => Option.some TaskType.timing_analysis
  | "power_optimization" => Option.some TaskType.power_optimization
  | "debug" => Option.some TaskType.debug
  | _ => Option.none

/-- Modelled from the spec: inverse of the `.value` mapping of the status
enumeration. -/
def TaskStatus.fromValue : String → Option TaskStatus
  | "pending" => Option.some TaskStatus.pending
  | "in_progress" => Option.some TaskStatus.in_progress
  | "completed" => Option.some TaskStatus.completed
  | "failed" => Option.some TaskStatus.failed
  | "needs_review" => Option.some TaskStatus.needs_review
  | _ => Option.none

mutual

/-- Modelled from the spec: the repository defines `Task.to_dict` but no
`Task.from_dict`; §6 requires round-trip fidelity ("serialize →
deserialize → field-equal"), so this decoder reads back the canonical
record layout `Task.to_dict` emits, using the field names and types of §3,
and fails on anything else. -/
def Task.from_dict : PyValue → Option Task
  | PyValue.dict
      [(k1, PyValue.str i), (k2, PyValue.str tyv), (k3, PyValue.str d),
       (k4, PyValue.str stv), (k5, PyValue.int pr), (k6, PyValue.dict ctx),
       (k7, PyValue.dict res), (k8, PyValue.list subs),
       (k9, PyValue.str created), (k10, PyValue.dict meta)] =>
    if k1 = "task_id" ∧ k2 = "task_type" ∧ k3 = "description" ∧ k4 = "status" ∧
        k5 = "priority" ∧ k6 = "context" ∧ k7 = "results" ∧ k8 = "sub_tasks" ∧
        k9 = "created_at" ∧ k10 = "metadata" then
      match TaskType.fromValue tyv, TaskStatus.fromValue stv,
          Task.listFromDict subs with
      | Option.some ty, Option.some st, Option.some subTasks =>
        Option.some (Task.mk i ty d st pr ctx res subTasks created meta)
      | _, _, _ => Option.none
    else
      Option.none
  | _ => Option.none

/-- Modelled from the spec: elementwise deserialization of a serialized
sub-task list. -/
def Task.listFromDict : List PyValue → Option (List Task)
  | [] => Option.some []
  | v :: vs =>
    match Task.from_dict v, Task.listFromDict vs with
    | Option.some t, Option.some ts => Option.some (t :: ts)
    | _, _ => Option.none

end

/-- Modelled from the spec: serialization of the `Optional[int]` duration
estimate (`None` or an integer). -/
def optIntToPy : Option Int → PyValue
  | Option.none => PyValue.none
  | Option.some n => PyValue.int n

/-- Modelled from the spec: serialization of the dependency mapping, each
prerequisite id list as a list of strings. -/
def depsToPy (deps : List (String × List String)) : List (String × PyValue) :=
  deps.map fun kv => (kv.1, PyValue.list (kv.2.map PyValue.str))

/-- Modelled from the spec: the repository has no `ExecutionPlan.to_dict`;
§6 requires `ExecutionPlan` to be serializable to a structured record with
the field names/types of §3 (`plan_id`, `tasks`, `dependencies`,
`estimated_duration`, `metadata`). -/
def ExecutionPlan.to_dict (p : ExecutionPlan) : PyValue :=
  PyValue.dict
    [("plan_id", PyValue.str p.plan_id),
     ("tasks", PyValue.list (Task.listToDict p.tasks)),
     ("dependencies", PyValue.dict (depsToPy p.dependencies)),
     ("estimated_duration", optIntToPy p.estimated_duration),
     ("metadata", PyValue.dict p.metadata)]

/-- Modelled from the spec: decoder for the serialized `Optional[int]`. -/
def optIntFromPy : PyValue → Option (Option Int)
  | PyValue.none => Option.some Option.none
  | PyValue.int n => Option.some (Option.some n)
  | _ => Option.none

/-- Modelled from the spec: decoder for a serialized string list. -/
def strListFromPy : List PyValue → Option (List String)
  | [] => Option.some []
  | PyValue.str s :: vs =>
    match strListFromPy vs with
    | Option.some ss => Option.some (s :: ss)
    | Option.none => Option.none
  | _ => Option.none

/-- Modelled from the spec: decoder for the serialized dependency
mapping. -/
def depsFromPy : List (String × PyValue) → Option (List (String × List String))
  | [] => Option.some []
  | (k, PyValue.list vs) :: rest =>
    match strListFromPy vs, depsFromPy rest with
    | Option.some ss, Option.some r => Option.some ((k, ss) :: r)
    | _, _ => Option.none
  | _ => Option.none

/-- Modelled from the spec: the repository has no `ExecutionPlan`
deserializer; this reads back the canonical record layout of
`ExecutionPlan.to_dict`. -/
def ExecutionPlan.from_dict : PyValue → Option ExecutionPlan
  | PyValue.dict
      [(k1, PyValue.str pid), (k2, PyValue.list ts), (k3, PyValue.dict dep),
       (k4, ed), (k5, PyValue.dict meta)] =>
    if k1 = "plan_id" ∧ k2 = "tasks" ∧ k3 = "dependencies" ∧
        k4 = "estimated_duration" ∧ k5 = "metadata" then
      match Task.listFromDict ts, depsFromPy dep, optIntFromPy ed with
      | Option.some tasks, Option.some deps, Option.some dur =>
        Option.some
          { plan_id := pid, tasks := tasks, dependencies := deps
            estimated_duration := dur, metadata := meta }
      | _, _, _ => Option.none
    else
      Option.none
  | _ => Option.none

/-- Modelled from the spec: the repository has no `AnalysisResult.to_dict`;
§6 requires `AnalysisResult` to be serializable to a structured record
with the field names/types of §3.  The layout coincides with the
`__dict__` view used by the audit logging (`AnalysisResult.pyDict`). -/
def AnalysisResult.to_dict (r : AnalysisResult) : PyValue :=
  r.pyDict

/-- Modelled from the spec: the repository has no `AnalysisResult`
deserializer; this reads back the canonical record layout of
`AnalysisResult.to_dict`. -/
def AnalysisResult.from_dict : PyValue → Option AnalysisResult
  | PyValue.dict
      [(k1, PyValue.bool ok), (k2, PyValue.str sm), (k3, PyValue.dict det),
       (k4, PyValue.list es), (k5, PyValue.list ws), (k6, PyValue.list rs),
       (k7, PyValue.str ts)] =>
    if k1 = "success" ∧ k2 = "summary" ∧ k3 = "details" ∧ k4 = "errors" ∧
        k5 = "warnings" ∧ k6 = "recommendations" ∧ k7 = "timestamp" then
      match strListFromPy es, strListFromPy ws, strListFromPy rs with
      | Option.some errors, Option.some warnings, Option.some recs =>
        Option.some
          { success := ok, summary := sm, details := det, errors := errors
            warnings := warnings, recommendations := recs, timestamp := ts }
      | _, _, _ => Option.none
    else
      Option.none
  | _ => Option.none

theorem taskTypeFromValue_value (ty : TaskType) :
    TaskType.fromValue ty.value = Option.some ty := by
  cases ty <;> rfl

theorem taskStatusFromValue_value (st : TaskStatus) :
    TaskStatus.fromValue st.value = Option.some st := by
  cases st <;> rfl

theorem strListFromPy_map (l : List String) :
    strListFromPy (l.map PyValue.str) = Option.some l := by
  induction l with
  | nil => rfl
  | cons s ss ih => simp [strListFromPy, ih]

theorem depsFromPy_depsToPy : ∀ (d : List (String × List String)),
    depsFromPy (depsToPy d) = Option.some d
  | [] => rfl
  | (k, ss) :: rest => by
    have ih := depsFromPy_depsToPy rest
    simp only [depsToPy, List.map] at ih ⊢
    simp [depsFromPy, strListFromPy_map, ih]

theorem optIntFromPy_optIntToPy (d : Option Int) :
    optIntFromPy (optIntToPy d) = Option.some d := by
  cases d <;> rfl

mutual

theorem task_from_to_dict : ∀ (t : Task),
    Task.from_dict t.to_dict = Option.some t
  | .mk i ty d st pr ctx res subs created meta => by
    have hs := Task.listFrom_listTo subs
    simp only [Task.to_dict, Task.from_dict, taskTypeFromValue_value,
      taskStatusFromValue_value, hs]
    simp

theorem Task.listFrom_listTo : ∀ (ts : List Task),
    Task.listFromDict (Task.listToDict ts) = Option.some ts
  | [] => rfl
  | t :: ts => by
    have h1 := task_from_to_dict t
    have h2 := Task.listFrom_listTo ts
    simp only [Task.listToDict, Task.listFromDict, h1, h2]

end

theorem plan_from_to_dict (p : ExecutionPlan) :
    ExecutionPlan.from_dict p.to_dict = Option.some p := by
  obtain ⟨pid, tasks, deps, dur, meta⟩ := p
  simp only [ExecutionPlan.to_dict, ExecutionPlan.from_dict,
    Task.listFrom_listTo, depsFromPy_depsToPy, optIntFromPy_optIntToPy]
  simp

theorem analysisResult_from_to_dict (r : AnalysisResult) :
    AnalysisResult.from_dict r.to_dict = Option.some r := by
  obtain ⟨ok, sm, det, es, ws, rs, ts⟩ := r
  simp only [AnalysisResult.to_dict, AnalysisResult.pyDict,
    AnalysisResult.from_dict, strListFromPy_map]
  simp

/-- C8: `Task`, `ExecutionPlan` and `AnalysisResult` each serialize to a
structured record with the data model's field names, and deserializing a
serialized value yields a field-for-field equal structure: serialize then
deserialize is the identity for all three types. -/
theorem serialization_roundtrip :
    (∀ t : Task, Task.from_dict t.to_dict = Option.some t) ∧
    (∀ p : ExecutionPlan, ExecutionPlan.from_dict p.to_dict = Option.some p) ∧
    (∀ r : AnalysisResult, AnalysisResult.from_dict r.to_dict = Option.some r) :=
  ⟨task_from_to_dict, plan_from_to_dict, analysisResult_from_to_dict⟩

/-- Concrete failed result with one error, one warning and one
recommendation, used as counterexample input. -/
def cexResult : AnalysisResult :=
  { success := false, summary := "s", details := [], errors := ["e1"]
    warnings := ["w1"], recommendations := ["r1"], timestamp := "t" }

/-- C6 counterexample: no single aggregation site has both the
"Completed N sub-tasks" summary and concatenated error lists.  On the
singleton list `[cexResult]` the supervisor aggregate
(`SupervisorAgent.process`) has the claimed summary but drops the errors
(its error list is empty, not the concatenation `["e1"]`), while the
`execute_command` aggregate concatenates the errors but has summary
`"Executed 1 tasks"`, not `"Completed 1 sub-tasks"`. -/
theorem aggregate_claim_counterexample :
    (supervisorAggregate "p" "t" [cexResult]).summary = "Completed 1 sub-tasks" ∧
    (supervisorAggregate "p" "t" [cexResult]).errors ≠ ["e1"] ∧
    (mainAggregate "tk" "p" "t" [cexResult]).errors = ["e1"] ∧
    (mainAggregate "tk" "p" "t" [cexResult]).summary ≠ "Completed 1 sub-tasks" := by
  refine ⟨rfl, ?_, rfl, ?_⟩ <;> decide

/-- C6 (amended): the system has two aggregation sites.
`SupervisorAgent.process` produces success = AND of the per-task flags and
the count-based summary "Completed N sub-tasks", but leaves the error,
warning and recommendation lists empty.  `RTLAgentSystem.execute_command`
produces success = AND of the per-task flags, concatenates the per-task
error/warning/recommendation lists in completion order, and uses the
summary "Executed N tasks". -/
theorem aggregation_characterization (taskId planId now : String)
    (rs : List AnalysisResult) :
    ((supervisorAggregate planId now rs).success = true ↔
      ∀ r ∈ rs, r.success = true) ∧
    (supervisorAggregate planId now rs).summary =
      "Completed " ++ toString rs.length ++ " sub-tasks" ∧
    (supervisorAggregate planId now rs).errors = [] ∧
    (supervisorAggregate planId now rs).warnings = [] ∧
    (supervisorAggregate planId now rs).recommendations = [] ∧
    ((mainAggregate taskId planId now rs).success = true ↔
      ∀ r ∈ rs, r.success = true) ∧
    (mainAggregate taskId planId now rs).summary =
      "Executed " ++ toString rs.length ++ " tasks" ∧
    (mainAggregate taskId planId now rs).errors =
      (rs.map fun r => r.errors).flatten ∧
    (mainAggregate taskId planId now rs).warnings =
      (rs.map fun r => r.warnings).flatten ∧
    (mainAggregate taskId planId now rs).recommendations =
      (rs.map fun r => r.recommendations).flatten := by
  refine ⟨?_, rfl, rfl, rfl, rfl, ?_, rfl, ?_, ?_, ?_⟩ <;>
    simp [supervisorAggregate, mainAggregate, List.all_eq_true,
      List.flatMap_def]

/-- Registry with no agent registered for any type. -/
def regNone : Registry := fun _ => Option.none

/-- Agent whose `process` always raises a fault with text `"boom"`. -/
def agentBoom : Task → Except String AnalysisResult :=
  fun _ => Except.error "boom"

/-- Registry registering the always-raising agent for every type. -/
def regBoom : Registry := fun _ => Option.some agentBoom

/-- Registry registering, for every type, an agent that always succeeds. -/
def regOk : Registry :=
  fun _ => Option.some fun t => Except.ok
    { success := true, summary := "ok " ++ t.task_id, details := []
      errors := [], warnings := [], recommendations := [], timestamp := "t1" }

/-- Concrete task used to instantiate witnesses. -/
def taskW : Task := Task.make "tw" TaskType.debug "demo task" [] "t0"

/-- C4: a task whose type has no registered worker, or whose worker raises,
yields a failed result carrying the no-capability message (resp. the fault
text) in its errors, and the batch never aborts: mapping `_execute_task`
over a frontier always yields one result per task, whatever faults
occur. -/
theorem task_fault_isolation (reg : Registry) (now : String) (t : Task)
    (w : Task → Except String AnalysisResult) (e : String)
    (frontier : List Task) :
    (reg t.task_type = Option.none →
      (execTask reg now t).success = false ∧
      (execTask reg now t).errors = [noCapMsg t]) ∧
    (reg t.task_type = Option.some w → w t = Except.error e →
      (execTask reg now t).success = false ∧
      (execTask reg now t).errors = [e]) ∧
    (frontier.map (execTask reg now)).length = frontier.length := by
  refine ⟨?_, ?_, by simp⟩
  · intro h
    simp [execTask, h, faultResult]
  · intro h hw
    simp [execTask, h, hw, faultResult]

/-- Witness for C4 at concrete inputs: an unregistered type and a raising
worker. -/
theorem task_fault_isolation_witness :
    ((execTask regNone "t0" taskW).success = false ∧
      (execTask regNone "t0" taskW).errors = [noCapMsg taskW]) ∧
    ((execTask regBoom "t0" taskW).success = false ∧
      (execTask regBoom "t0" taskW).errors = ["boom"]) ∧
    ([taskW].map (execTask regBoom "t0")).length = 1 :=
  ⟨(task_fault_isolation regNone "t0" taskW agentBoom "boom" []).1 rfl,
   (task_fault_isolation regBoom "t0" taskW agentBoom "boom" []).2.1 rfl rfl,
   (task_fault_isolation regBoom "t0" taskW agentBoom "boom" [taskW]).2.2⟩

theorem flRunFrom_isOk (process : Task → AnalysisResult)
    (fix : List String → Except String Task) (maxIt : Int) (now : String) :
    ∀ (fuel idx : Nat) (t : Task) (last : Option (Nat × AnalysisResult))
      (hist : List FLEntry), fuel ≠ 0 ∨ last.isSome = true →
      ∃ r, (flRunFrom process fix maxIt now fuel idx t last hist).outcome =
        Except.ok r := by
  intro fuel
  induction fuel with
  | zero =>
    intro idx t last hist h
    match last with
    | Option.none => simp at h
    | Option.some (k, r) => exact ⟨_, rfl⟩
  | succ n ih =>
    intro idx t last hist _
    simp only [flRunFrom]
    by_cases h1 : (process t).success
    · simp [h1]
    · simp only [h1, Bool.false_eq_true, if_false]
      by_cases h2 : (process t).recommendations.isEmpty
      · simp [h2]
      · simp only [h2, Bool.false_eq_true, if_false]
        cases hfix : fix (process t).recommendations with
        | error e => exact ⟨_, rfl⟩
        | ok t2 => exact ih (idx + 1) t2 _ _ (Or.inr rfl)

theorem flRunFrom_unbound (process : Task → AnalysisResult)
    (fix : List String → Except String Task) (maxIt : Int) (now : String)
    (idx : Nat) (t : Task) (hist : List FLEntry) :
    (flRunFrom process fix maxIt now 0 idx t Option.none hist).outcome =
      Except.error FLError.unboundLocal := rfl

/-- C10: `FeedbackLoop.run` returns an `AnalysisResult` exactly when the
retry budget is at least 1.  With `max_iterations <= 0` the `for` body
never runs, the local `result` is never bound, and line 448 faults with
`UnboundLocalError` instead of returning; with `max_iterations >= 1` the
first iteration binds `result` and that error branch is unreachable. -/
theorem feedback_requires_positive_budget (maxIt : Int)
    (process : Task → AnalysisResult) (fix : List String → Except String Task)
    (task : Task) (now : String) :
    ((FeedbackLoop.run maxIt process fix task now).outcome =
      Except.error FLError.unboundLocal ↔ maxIt ≤ 0) ∧
    ((∃ r, (FeedbackLoop.run maxIt process fix task now).outcome =
      Except.ok r) ↔ 1 ≤ maxIt) := by
  unfold FeedbackLoop.run
  by_cases h : maxIt ≤ 0
  · have hz : maxIt.toNat = 0 := Int.toNat_eq_zero.mpr h
    rw [hz]
    constructor
    · exact ⟨fun _ => h, fun _ => flRunFrom_unbound process fix maxIt now 0 task []⟩
    · constructor
      · rintro ⟨r, hr⟩
        rw [flRunFrom_unbound] at hr
        cases hr
      · intro h1
        omega
  · have hnz : maxIt.toNat ≠ 0 := by omega
    obtain ⟨r, hr⟩ := flRunFrom_isOk process fix maxIt now maxIt.toNat 0 task
      Option.none [] (Or.inl hnz)
    constructor
    · rw [hr]
      constructor
      · intro hc
        cases hc
      · intro hc
        exact absurd hc h
    · exact ⟨fun _ => by omega, fun _ => ⟨r, hr⟩⟩

theorem flRunFrom_succ (process : Task → AnalysisResult)
    (fix : List String → Except String Task) (maxIt : Int) (now : String)
    (fuel idx : Nat) (t : Task) (last : Option (Nat × AnalysisResult))
    (hist : List FLEntry) :
    flRunFrom process fix maxIt now (fuel + 1) idx t last hist =
      if (process t).success then
        { outcome := Except.ok (process t)
          history := hist ++ [⟨idx, t.task_id, process t, now⟩]
          finalIdx := Option.some idx }
      else if (process t).recommendations.isEmpty then
        { outcome := Except.ok (process t)
          history := hist ++ [⟨idx, t.task_id, process t, now⟩]
          finalIdx := Option.some idx }
      else
        match fix (process t).recommendations with
        | Except.error e =>
          { outcome := Except.ok
              { process t with errors := (process t).errors ++ [fixFailMsg e] }
            history := hist ++ [⟨idx, t.task_id, process t, now⟩]
            finalIdx := Option.some idx }
        | Except.ok t2 =>
          flRunFrom process fix maxIt now fuel (idx + 1) t2
            (Option.some (idx, process t))
            (hist ++ [⟨idx, t.task_id, process t, now⟩]) := rfl

theorem flRunFrom_exhaust (process : Task → AnalysisResult)
    (fix : List String → Except String Task) (maxIt : Int) (now : String)
    (hfail : ∀ t, (process t).success = false)
    (hrecs : ∀ t, (process t).recommendations ≠ [])
    (hfix : ∀ rs, ∃ t, fix rs = Except.ok t) :
    ∀ (n idx : Nat) (t : Task) (last : Option (Nat × AnalysisResult))
      (hist : List FLEntry),
      ∃ e : FLEntry,
        (flRunFrom process fix maxIt now (n + 1) idx t last hist).history.length
          = hist.length + (n + 1) ∧
        (flRunFrom process fix maxIt now (n + 1) idx t last hist).history.getLast?
          = Option.some e ∧
        e.result.success = false ∧
        e.iteration = idx + n ∧
        (flRunFrom process fix maxIt now (n + 1) idx t last hist).outcome =
          Except.ok { e.result with errors := e.result.errors ++ [maxIterMsg maxIt] } ∧
        (flRunFrom process fix maxIt now (n + 1) idx t last hist).finalIdx =
          Option.some (idx + n) := by
  intro n
  induction n with
  | zero =>
    intro idx t last hist
    obtain ⟨t2, ht2⟩ := hfix (process t).recommendations
    have hne : (process t).recommendations.isEmpty = false := by
      simpa [List.isEmpty_iff] using hrecs t
    refine ⟨⟨idx, t.task_id, process t, now⟩, ?_⟩
    rw [flRunFrom_succ]
    simp [hfail t, hne, ht2, flRunFrom, List.getLast?_concat]
  | succ n ih =>
    intro idx t last hist
    obtain ⟨t2, ht2⟩ := hfix (process t).recommendations
    have hne : (process t).recommendations.isEmpty = false := by
      simpa [List.isEmpty_iff] using hrecs t
    obtain ⟨e, h1, h2, h3, h4, h5, h6⟩ := ih (idx + 1) t2
      (Option.some (idx, process t))
      (hist ++ [⟨idx, t.task_id, process t, now⟩])
    refine ⟨e, ?_, ?_, h3, ?_, ?_, ?_⟩
    · rw [flRunFrom_succ]
      simp only [hfail t, hne, ht2, Bool.false_eq_true, if_false]
      rw [h1]
      simp
      omega
    · rw [flRunFrom_succ]
      simp only [hfail t, hne, ht2, Bool.false_eq_true, if_false]
      exact h2
    · rw [h4]
      omega
    · rw [flRunFrom_succ]
      simp only [hfail t, hne, ht2, Bool.false_eq_true, if_false]
      exact h5
    · rw [flRunFrom_succ]
      simp only [hfail t, hne, ht2, Bool.false_eq_true, if_false]
      rw [h6]
      congr 1
      omega

/-- C5: with a retry budget of at least 1, a worker that always fails with
non-empty recommendations, and a never-faulting repair callback, the
feedback loop performs exactly `max_iterations` attempts (the iteration
history has exactly that length, its last entry being attempt number
`max_iterations - 1`), and returns that last failed result annotated with
the iteration-budget-exhausted marker. -/
theorem feedback_exhaustion (maxIt : Int) (process : Task → AnalysisResult)
    (fix : List String → Except String Task) (task : Task) (now : String)
    (hpos : 1 ≤ maxIt)
    (hfail : ∀ t, (process t).success = false)
    (hrecs : ∀ t, (process t).recommendations ≠ [])
    (hfix : ∀ rs, ∃ t, fix rs = Except.ok t) :
    (FeedbackLoop.run maxIt process fix task now).history.length = maxIt.toNat ∧
    ∃ e : FLEntry,
      (FeedbackLoop.run maxIt process fix task now).history.getLast? =
        Option.some e ∧
      e.result.success = false ∧
      e.iteration = maxIt.toNat - 1 ∧
      (FeedbackLoop.run maxIt process fix task now).outcome =
        Except.ok { e.result with errors := e.result.errors ++ [maxIterMsg maxIt] } := by
  have hn : maxIt.toNat = (maxIt.toNat - 1) + 1 := by omega
  unfold FeedbackLoop.run
  rw [hn]
  obtain ⟨e, h1, h2, h3, h4, h5, h6⟩ := flRunFrom_exhaust process fix maxIt now
    hfail hrecs hfix (maxIt.toNat - 1) 0 task Option.none []
  refine ⟨by simpa using h1, e, h2, h3, by omega, h5⟩

/-- Worker behaviour that always fails with a non-empty recommendation
list and no errors. -/
def processAF : Task → AnalysisResult := fun _ =>
  { success := false, summary := "fail", details := [], errors := []
    warnings := [], recommendations := ["r1"], timestamp := "t1" }

/-- Repair callback that never faults. -/
def fixOk : List String → Except String Task := fun _ => Except.ok taskW

/-- Witness for C5 at a concrete run: budget 2, always-failing worker. -/
theorem feedback_exhaustion_witness :
    (FeedbackLoop.run 2 processAF fixOk taskW "t0").history.length = 2 ∧
    ∃ e : FLEntry,
      (FeedbackLoop.run 2 processAF fixOk taskW "t0").history.getLast? =
        Option.some e ∧
      e.result.success = false ∧
      e.iteration = 1 ∧
      (FeedbackLoop.run 2 processAF fixOk taskW "t0").outcome =
        Except.ok { e.result with errors := e.result.errors ++ [maxIterMsg 2] } :=
  feedback_exhaustion 2 processAF fixOk taskW "t0" (by decide)
    (fun _ => rfl) (fun _ => by simp [processAF]) (fun _ => ⟨taskW, rfl⟩)

theorem schedLoop_succ (reg : Registry) (now : String) (plan : ExecutionPlan)
    (fuel : Nat) (completed : List String) (log : List SchedEntry) :
    schedLoop reg now plan (fuel + 1) completed log =
      if completed.length < plan.tasks.length then
        match plan.get_next_tasks completed with
        | [] => Option.some (completed, log)
        | t :: ts =>
          schedLoop reg now plan fuel (addFrontier completed (t :: ts))
            (log ++ (t :: ts).map (runEntry reg now))
      else
        Option.some (completed, log) := rfl

theorem addFrontier_cons (c : List String) (t : Task) (ts : List Task) :
    addFrontier c (t :: ts) = addFrontier (addCompleted c t.task_id) ts := rfl

theorem mem_addCompleted (c : List String) (i a : String) :
    a ∈ addCompleted c i ↔ a ∈ c ∨ a = i := by
  unfold addCompleted
  by_cases h : i ∈ c
  · simp only [h, if_true]
    constructor
    · exact Or.inl
    · rintro (ha | rfl) <;> [exact ha; exact h]
  · simp [h, List.mem_append]

theorem length_addCompleted (c : List String) (i : String) :
    c.length ≤ (addCompleted c i).length := by
  unfold addCompleted
  by_cases h : i ∈ c <;> simp [h]

theorem length_addCompleted_lt (c : List String) (i : String) (h : i ∉ c) :
    c.length < (addCompleted c i).length := by
  simp [addCompleted, h]

theorem nodup_addCompleted (c : List String) (i : String) (h : c.Nodup) :
    (addCompleted c i).Nodup := by
  unfold addCompleted
  by_cases hc : i ∈ c
  · simpa [hc]
  · simp [hc, List.nodup_append, h]

theorem length_addFrontier (ts : List Task) :
    ∀ c : List String, c.length ≤ (addFrontier c ts).length := by
  induction ts with
  | nil => intro c; simp [addFrontier]
  | cons t ts ih =>
    intro c
    have h1 := length_addCompleted c t.task_id
    have h2 := ih (addCompleted c t.task_id)
    rw [addFrontier_cons]
    omega

theorem length_addFrontier_lt (ts : List Task) :
    ∀ c : List String, (∃ t ∈ ts, t.task_id ∉ c) →
      c.length < (addFrontier c ts).length := by
  induction ts with
  | nil => rintro c ⟨t, ht, _⟩; cases ht
  | cons t ts ih =>
    rintro c ⟨u, hu, hnm⟩
    rw [addFrontier_cons]
    rcases List.mem_cons.mp hu with rfl | hu2
    · have h1 := length_addCompleted_lt c u.task_id hnm
      have h2 := length_addFrontier ts (addCompleted c u.task_id)
      omega
    · by_cases hm : u.task_id ∈ addCompleted c t.task_id
      · by_cases ht : t.task_id ∈ c
        · have hadd : addCompleted c t.task_id = c := by
            simp [addCompleted, ht]
          rw [hadd] at hm
          exact absurd hm hnm
        · have h1 := length_addCompleted_lt c t.task_id ht
          have h2 := length_addFrontier ts (addCompleted c t.task_id)
          omega
      · have h1 := ih (addCompleted c t.task_id) ⟨u, hu2, hm⟩
        have h2 := length_addCompleted c t.task_id
        omega

theorem mem_addFrontier (ts : List Task) :
    ∀ (c : List String) (a : String),
      a ∈ addFrontier c ts ↔ a ∈ c ∨ a ∈ ts.map Task.task_id := by
  induction ts with
  | nil => intro c a; simp [addFrontier]
  | cons t ts ih =>
    intro c a
    rw [addFrontier_cons, ih, mem_addCompleted]
    simp [or_assoc]

theorem runEntry_task (reg : Registry) (now : String) (t : Task) :
    (runEntry reg now t).task = t := rfl

theorem runEntry_result (reg : Registry) (now : String) (t : Task) :
    (runEntry reg now t).result = execTask reg now t := rfl

theorem runEntry_status (reg : Registry) (now : String) (t : Task) :
    (runEntry reg now t).status =
      if (execTask reg now t).success then TaskStatus.completed
      else TaskStatus.failed := rfl

theorem mem_get_next_tasks (p : ExecutionPlan) (completed : List String)
    (t : Task) :
    t ∈ p.get_next_tasks completed ↔
      t ∈ p.tasks ∧ t.task_id ∉ completed ∧
        ∀ d ∈ p.depsOf t.task_id, d ∈ completed := by
  unfold ExecutionPlan.get_next_tasks
  rw [List.mem_filter]
  simp [List.all_eq_true, and_assoc]

theorem schedLoop_isSome (reg : Registry) (now : String) (plan : ExecutionPlan) :
    ∀ (fuel : Nat) (completed : List String) (log : List SchedEntry),
      plan.tasks.length - completed.length < fuel →
      (schedLoop reg now plan fuel completed log).isSome = true := by
  intro fuel
  induction fuel with
  | zero =>
    intro c log h
    exact absurd h (by omega)
  | succ n ih =>
    intro c log h
    rw [schedLoop_succ]
    by_cases hg : c.length < plan.tasks.length
    · rw [if_pos hg]
      cases hft : plan.get_next_tasks c with
      | nil => simp
      | cons t ts =>
        apply ih
        have ht : t ∈ plan.get_next_tasks c := hft ▸ List.mem_cons_self t ts
        have hmem := (mem_get_next_tasks plan c t).mp ht
        have hlt := length_addFrontier_lt (t :: ts) c
          ⟨t, List.mem_cons_self t ts, hmem.2.1⟩
        omega
    · rw [if_neg hg]
      simp

theorem schedLoop_entries (reg : Registry) (now : String) (plan : ExecutionPlan)
    (P : SchedEntry → Prop) (hP : ∀ t, P (runEntry reg now t)) :
    ∀ (fuel : Nat) (completed : List String) (log : List SchedEntry)
      (out : List String × List SchedEntry),
      (∀ e ∈ log, P e) →
      schedLoop reg now plan fuel completed log = Option.some out →
      ∀ e ∈ out.2, P e := by
  intro fuel
  induction fuel with
  | zero =>
    intro c log out _ h
    simp [schedLoop] at h
  | succ n ih =>
    intro c log out hlog heq
    rw [schedLoop_succ] at heq
    by_cases hg : c.length < plan.tasks.length
    · rw [if_pos hg] at heq
      cases hft : plan.get_next_tasks c with
      | nil =>
        rw [hft] at heq
        cases heq
        exact hlog
      | cons t ts =>
        rw [hft] at heq
        refine ih _ _ out ?_ heq
        intro e he
        rcases List.mem_append.mp he with h1 | h2
        · exact hlog e h1
        · obtain ⟨t2, _, rfl⟩ := List.mem_map.mp h2
          exact hP t2
    · rw [if_neg hg] at heq
      cases heq
      exact hlog

theorem schedLoop_schedule_eq (plan : ExecutionPlan) (reg1 reg2 : Registry)
    (now1 now2 : String) :
    ∀ (fuel : Nat) (completed : List String) (log1 log2 : List SchedEntry),
      log1.map (fun e => e.task) = log2.map (fun e => e.task) →
      Option.map (fun o => (o.1, o.2.map fun e => e.task))
          (schedLoop reg1 now1 plan fuel completed log1) =
        Option.map (fun o => (o.1, o.2.map fun e => e.task))
          (schedLoop reg2 now2 plan fuel completed log2) := by
  intro fuel
  induction fuel with
  | zero => intro c l1 l2 _; rfl
  | succ n ih =>
    intro c l1 l2 h
    rw [schedLoop_succ, schedLoop_succ]
    by_cases hg : c.length < plan.tasks.length
    · rw [if_pos hg, if_pos hg]
      cases hft : plan.get_next_tasks c with
      | nil =>
        exact congrArg (fun l => Option.some (c, l)) h
      | cons t ts =>
        refine ih (addFrontier c (t :: ts))
          (l1 ++ (t :: ts).map (runEntry reg1 now1))
          (l2 ++ (t :: ts).map (runEntry reg2 now2)) ?_
        simp only [List.map_append, List.map_map, h]
        congr 1
    · rw [if_neg hg, if_neg hg]
      exact congrArg (fun l => Option.some (c, l)) h

theorem schedLoop_log_sub_completed (reg : Registry) (now : String)
    (plan : ExecutionPlan) :
    ∀ (fuel : Nat) (completed : List String) (log : List SchedEntry)
      (out : List String × List SchedEntry),
      (∀ e ∈ log, e.task.task_id ∈ completed) →
      schedLoop reg now plan fuel completed log = Option.some out →
      ∀ e ∈ out.2, e.task.task_id ∈ out.1 := by
  intro fuel
  induction fuel with
  | zero =>
    intro c log out _ h
    simp [schedLoop] at h
  | succ n ih =>
    intro c log out hlog heq
    rw [schedLoop_succ] at heq
    by_cases hg : c.length < plan.tasks.length
    · rw [if_pos hg] at heq
      cases hft : plan.get_next_tasks c with
      | nil =>
        rw [hft] at heq
        cases heq
        exact hlog
      | cons t ts =>
        rw [hft] at heq
        refine ih _ _ out ?_ heq
        intro e he
        rcases List.mem_append.mp he with h1 | h2
        · exact (mem_addFrontier (t :: ts) c e.task.task_id).mpr
            (Or.inl (hlog e h1))
        · obtain ⟨t2, ht2, rfl⟩ := List.mem_map.mp h2
          refine (mem_addFrontier (t :: ts) c _).mpr (Or.inr ?_)
          simp only [runEntry_task]
          exact List.mem_map.mpr ⟨t2, ht2, rfl⟩
    · rw [if_neg hg] at heq
      cases heq
      exact hlog

/-- C3: the schedule of `execute_plan` — which tasks run, in which order,
and which ids end up in the completed set — is completely independent of
the per-task results: any two registries (and timestamps) produce the same
executed-task sequence and the same completed set, so a task whose
prerequisites all finished is executed in a later frontier even when a
prerequisite failed.  Moreover every executed task's id is in the final
completed set, and its recorded status is `COMPLETED` exactly when its
result's success flag is true (otherwise `FAILED`). -/
theorem scheduler_completion_semantics (plan : ExecutionPlan)
    (reg1 reg2 : Registry) (now1 now2 : String) :
    schedCompleted reg1 now1 plan = schedCompleted reg2 now2 plan ∧
    schedExecutedIds reg1 now1 plan = schedExecutedIds reg2 now2 plan ∧
    ((schedLog reg1 now1 plan).all fun e =>
      decide (e.status =
        if e.result.success then TaskStatus.completed
        else TaskStatus.failed)) = true ∧
    ((schedLog reg1 now1 plan).all fun e =>
      (schedCompleted reg1 now1 plan).contains e.task.task_id) = true := by
  have hfuel : plan.tasks.length - ([] : List String).length <
      plan.tasks.length + 1 := by simp
  have hs1 := schedLoop_isSome reg1 now1 plan (plan.tasks.length + 1) [] [] hfuel
  have hs2 := schedLoop_isSome reg2 now2 plan (plan.tasks.length + 1) [] [] hfuel
  obtain ⟨o1, ho1⟩ := Option.isSome_iff_exists.mp hs1
  obtain ⟨o2, ho2⟩ := Option.isSome_iff_exists.mp hs2
  have hsched := schedLoop_schedule_eq plan reg1 reg2 now1 now2
    (plan.tasks.length + 1) [] [] [] rfl
  rw [ho1, ho2] at hsched
  simp only [Option.map_some'] at hsched
  have hpair := Option.some.inj hsched
  rw [Prod.mk.injEq] at hpair
  obtain ⟨hc, hmap⟩ := hpair
  have hrun1 : schedRun reg1 now1 plan = Option.some o1 := ho1
  have hrun2 : schedRun reg2 now2 plan = Option.some o2 := ho2
  refine ⟨?_, ?_, ?_, ?_⟩
  · simp [schedCompleted, hrun1, hrun2, hc]
  · simp only [schedExecutedIds, schedLog, hrun1, hrun2, Option.getD_some]
    have : ∀ (l : List SchedEntry), (l.map fun e => e.task.task_id) =
        (l.map fun e => e.task).map Task.task_id := by
      intro l
      rw [List.map_map]
      rfl
    rw [this, this, hmap]
  · rw [List.all_eq_true]
    intro e he
    rw [decide_eq_true_iff]
    have := schedLoop_entries reg1 now1 plan
      (fun e => e.status =
        if e.result.success then TaskStatus.completed else TaskStatus.failed)
      (fun t => by simp [runEntry_status, runEntry_result])
      (plan.tasks.length + 1) [] [] o1 (by simp) hrun1
    refine this e ?_
    simpa [schedLog, hrun1] using he
  · rw [List.all_eq_true]
    intro e he
    have := schedLoop_log_sub_completed reg1 now1 plan
      (plan.tasks.length + 1) [] [] o1 (by simp) hrun1
    have hm : e.task.task_id ∈ o1.1 := by
      refine this e ?_
      simpa [schedLog, hrun1] using he
    simp [schedCompleted, hrun1, List.elem_iff] at hm ⊢
    exact hm

theorem flRunFrom_origin (process : Task → AnalysisResult)
    (fix : List String → Except String Task) (maxIt : Int) (now : String) :
    ∀ (fuel idx : Nat) (t : Task) (last : Option (Nat × AnalysisResult))
      (hist : List FLEntry),
      hist.length = idx →
      (∀ k r, last = Option.some (k, r) →
        ∃ e, hist.get? k = Option.some e ∧ e.result = r) →
      ∀ res,
        (flRunFrom process fix maxIt now fuel idx t last hist).outcome =
          Except.ok res →
        ∃ k e,
          (flRunFrom process fix maxIt now fuel idx t last hist).finalIdx =
            Option.some k ∧
          (flRunFrom process fix maxIt now fuel idx t last hist).history.get? k =
            Option.some e ∧
          (res = e.result ∨
            ∃ m, res = { e.result with errors := e.result.errors ++ [m] }) := by
  intro fuel
  induction fuel with
  | zero =>
    intro idx t last hist hlen hlast res hres
    cases last with
    | none => simp [flRunFrom] at hres
    | some kr =>
      obtain ⟨k, r⟩ := kr
      simp only [flRunFrom, Except.ok.injEq] at hres
      obtain ⟨e, he1, he2⟩ := hlast k r rfl
      exact ⟨k, e, rfl, he1, Or.inr ⟨maxIterMsg maxIt, by rw [← hres, he2]⟩⟩
  | succ n ih =>
    intro idx t last hist hlen hlast res hres
    rw [flRunFrom_succ] at hres ⊢
    have hcat : (hist ++ [(⟨idx, t.task_id, process t, now⟩ : FLEntry)]).get? idx =
        Option.some ⟨idx, t.task_id, process t, now⟩ := by
      rw [← hlen]
      exact List.get?_concat_length hist _
    by_cases h1 : (process t).success
    · rw [if_pos h1] at hres ⊢
      refine ⟨idx, ⟨idx, t.task_id, process t, now⟩, rfl, hcat, Or.inl ?_⟩
      exact (Except.ok.inj hres).symm
    · rw [if_neg h1] at hres ⊢
      by_cases h2 : (process t).recommendations.isEmpty
      · rw [if_pos h2] at hres ⊢
        refine ⟨idx, ⟨idx, t.task_id, process t, now⟩, rfl, hcat, Or.inl ?_⟩
        exact (Except.ok.inj hres).symm
      · rw [if_neg h2] at hres ⊢
        split at hres
        next e2 heq =>
          refine ⟨idx, ⟨idx, t.task_id, process t, now⟩, rfl, hcat,
            Or.inr ⟨fixFailMsg e2, ?_⟩⟩
          exact (Except.ok.inj hres).symm
        next t2 heq =>
          refine ih (idx + 1) t2 (Option.some (idx, process t))
            (hist ++ [⟨idx, t.task_id, process t, now⟩]) (by simp [hlen])
            ?_ res hres
          rintro k r hkr
          cases hkr
          exact ⟨⟨idx, t.task_id, process t, now⟩, hcat, rfl⟩

/-- C9 counterexample: in a concrete feedback-loop run (budget 1, a worker
that fails with a recommendation and an empty error list), the
`AnalysisResult` object returned by `run` is the object produced at
iteration 0 (`finalIdx = some 0`; every `return` of the source returns the
`result` local bound by the worker call), yet its `errors` list is
`["Max iterations (1) reached"]` while the same object's `errors` was `[]`
when the worker produced it (as recorded in the history): line 448
(`result.errors.append(...)`) modified the produced result's `errors` in
place after the worker returned. -/
theorem result_mutation_counterexample :
    (FeedbackLoop.run 1 processAF fixOk taskW "t0").finalIdx = Option.some 0 ∧
    ((FeedbackLoop.run 1 processAF fixOk taskW "t0").history.map
      fun e => e.result.errors) = [[]] ∧
    (FeedbackLoop.run 1 processAF fixOk taskW "t0").outcome =
      Except.ok { processAF taskW with
        errors := ["Max iterations (1) reached"] } ∧
    (["Max iterations (1) reached"] : List String) ≠ [] :=
  ⟨rfl, rfl, rfl, by decide⟩

/-- C9 (amended): `AnalysisResult` values are never modified by the
scheduler — `execute_plan` returns exactly the per-task executor outputs,
unchanged — and aggregation only builds new results; but `FeedbackLoop.run`
does modify a produced result after the worker returns: the result it
returns is the object produced at iteration `finalIdx` either unchanged or
with exactly one message appended in place to its `errors` list (the
repair-fault or budget-exhausted annotation), all other fields intact. -/
theorem result_mutation_scope (maxIt : Int) (process : Task → AnalysisResult)
    (fix : List String → Except String Task) (task : Task) (now : String)
    (reg : Registry) (nowS : String) (plan : ExecutionPlan) :
    (∀ res,
      (FeedbackLoop.run maxIt process fix task now).outcome = Except.ok res →
      ∃ k e,
        (FeedbackLoop.run maxIt process fix task now).finalIdx =
          Option.some k ∧
        (FeedbackLoop.run maxIt process fix task now).history.get? k =
          Option.some e ∧
        (res = e.result ∨
          ∃ m, res = { e.result with errors := e.result.errors ++ [m] })) ∧
    execute_plan reg nowS plan =
      (schedLog reg nowS plan).map fun e => execTask reg nowS e.task := by
  constructor
  · intro res hres
    exact flRunFrom_origin process fix maxIt now maxIt.toNat 0 task
      Option.none [] rfl (by rintro k r ⟨⟩) res hres
  · cases hrun : schedRun reg nowS plan with
    | none => simp [execute_plan, schedLog, hrun]
    | some out =>
      have hent := schedLoop_entries reg nowS plan
        (fun e => e.result = execTask reg nowS e.task)
        (fun t => by simp [runEntry_result, runEntry_task])
        (plan.tasks.length + 1) [] [] out (by simp) hrun
      simp only [execute_plan]
      apply List.map_congr_left
      intro e he
      exact hent e (by simpa [schedLog, hrun] using he)

/-- Witness for C9's amended theorem at a concrete feedback run and a
concrete (empty) plan. -/
theorem result_mutation_scope_witness :
    (∃ k e,
      (FeedbackLoop.run 1 processAF fixOk taskW "t0").finalIdx =
        Option.some k ∧
      (FeedbackLoop.run 1 processAF fixOk taskW "t0").history.get? k =
        Option.some e ∧
      ({ processAF taskW with errors := ["Max iterations (1) reached"] }
          = e.result ∨
        ∃ m, { processAF taskW with errors := ["Max iterations (1) reached"] }
          = { e.result with errors := e.result.errors ++ [m] })) ∧
    execute_plan regOk "t0" (ExecutionPlan.mk "p0" [] [] Option.none []) =
      (schedLog regOk "t0" (ExecutionPlan.mk "p0" [] [] Option.none [])).map
        fun e => execTask regOk "t0" e.task :=
  ⟨(result_mutation_scope 1 processAF fixOk taskW "t0" regOk "t0"
      (ExecutionPlan.mk "p0" [] [] Option.none [])).1
      { processAF taskW with errors := ["Max iterations (1) reached"] } rfl,
   (result_mutation_scope 1 processAF fixOk taskW "t0" regOk "t0"
      (ExecutionPlan.mk "p0" [] [] Option.none [])).2⟩

theorem exists_min_rank {α : Type} (f : α → Nat) :
    ∀ (l : List α), l ≠ [] → ∃ x ∈ l, ∀ y ∈ l, f x ≤ f y := by
  intro l
  induction l with
  | nil => intro h; exact absurd rfl h
  | cons a l ih =>
    intro _
    cases l with
    | nil => exact ⟨a, List.mem_cons_self a [], by simp⟩
    | cons b l2 =>
      obtain ⟨x, hx, hmin⟩ := ih (by simp)
      by_cases hle : f a ≤ f x
      · refine ⟨a, List.mem_cons_self a _, ?_⟩
        intro y hy
        rcases List.mem_cons.mp hy with rfl | hy2
        · exact le_refl _
        · exact le_trans hle (hmin y hy2)
      · refine ⟨x, List.mem_cons_of_mem a hx, ?_⟩
        intro y hy
        rcases List.mem_cons.mp hy with rfl | hy2
        · omega
        · exact hmin y hy2

theorem frontier_nonempty (plan : ExecutionPlan) (completed : List String)
    (rank : String → Nat)
    (hclosed : ∀ t ∈ plan.tasks, ∀ d ∈ plan.depsOf t.task_id, d ∈ plan.taskIds)
    (hrank : ∀ t ∈ plan.tasks, ∀ d ∈ plan.depsOf t.task_id,
      rank d < rank t.task_id)
    (hx : ∃ t ∈ plan.tasks, t.task_id ∉ completed) :
    plan.get_next_tasks completed ≠ [] := by
  obtain ⟨t1, ht1, hid1⟩ := hx
  have hne : plan.tasks.filter (fun t => decide (t.task_id ∉ completed)) ≠ [] := by
    intro hcon
    have : t1 ∈ plan.tasks.filter (fun t => decide (t.task_id ∉ completed)) :=
      List.mem_filter.mpr ⟨ht1, by simpa⟩
    rw [hcon] at this
    cases this
  obtain ⟨t0, ht0, hmin⟩ := exists_min_rank (fun t => rank t.task_id) _ hne
  have ht0m := List.mem_filter.mp ht0
  have ht0t : t0 ∈ plan.tasks := ht0m.1
  have ht0c : t0.task_id ∉ completed := by simpa using ht0m.2
  have hdeps : ∀ d ∈ plan.depsOf t0.task_id, d ∈ completed := by
    intro d hd
    by_contra hdc
    obtain ⟨u, hu, hud⟩ := List.mem_map.mp (hclosed t0 ht0t d hd)
    have humem : u ∈ plan.tasks.filter (fun t => decide (t.task_id ∉ completed)) :=
      List.mem_filter.mpr ⟨hu, by simp [hud, hdc]⟩
    have h1 := hmin u humem
    have h2 := hrank t0 ht0t d hd
    rw [hud] at h1
    omega
  have : t0 ∈ plan.get_next_tasks completed :=
    (mem_get_next_tasks plan completed t0).mpr ⟨ht0t, ht0c, hdeps⟩
  exact List.ne_nil_of_mem this

theorem addFrontier_eq_append (ts : List Task) :
    ∀ c : List String, (∀ t ∈ ts, t.task_id ∉ c) →
      (ts.map Task.task_id).Nodup →
      addFrontier c ts = c ++ ts.map Task.task_id := by
  induction ts with
  | nil => intro c _ _; simp [addFrontier]
  | cons t ts ih =>
    intro c hnew hnd
    rw [addFrontier_cons]
    have ht : t.task_id ∉ c := hnew t (List.mem_cons_self t ts)
    have hadd : addCompleted c t.task_id = c ++ [t.task_id] := by
      simp [addCompleted, ht]
    rw [hadd, ih (c ++ [t.task_id]) ?_ ?_]
    · simp
    · intro u hu
      simp only [List.mem_append, List.mem_singleton, not_or]
      refine ⟨hnew u (List.mem_cons_of_mem t hu), ?_⟩
      have hhd : t.task_id ∉ ts.map Task.task_id :=
        (List.nodup_cons.mp (by simpa using hnd)).1
      intro hcon
      exact hhd (hcon ▸ List.mem_map.mpr ⟨u, hu, rfl⟩)
    · exact (List.nodup_cons.mp (by simpa using hnd)).2

theorem nodup_subset_mem_iff (l1 l2 : List String) (h1 : l1.Nodup)
    (h2 : l2.Nodup) (hs : l1 ⊆ l2) (hl : l2.length ≤ l1.length) :
    ∀ a, a ∈ l1 ↔ a ∈ l2 := by
  intro a
  have c1 := List.toFinset_card_of_nodup h1
  have c2 := List.toFinset_card_of_nodup h2
  have hsub : l1.toFinset ⊆ l2.toFinset := by
    intro x hx
    simp only [List.mem_toFinset] at hx ⊢
    exact hs hx
  have heq : l1.toFinset = l2.toFinset :=
    Finset.eq_of_subset_of_card_le hsub (by omega)
  constructor
  · intro h
    exact hs h
  · intro h
    have hm : a ∈ l2.toFinset := List.mem_toFinset.mpr h
    rw [← heq] at hm
    exact List.mem_toFinset.mp hm

theorem schedLoop_acyclic_complete (reg : Registry) (now : String)
    (plan : ExecutionPlan) (rank : String → Nat)
    (hnd : plan.taskIds.Nodup)
    (hclosed : ∀ t ∈ plan.tasks, ∀ d ∈ plan.depsOf t.task_id, d ∈ plan.taskIds)
    (hrank : ∀ t ∈ plan.tasks, ∀ d ∈ plan.depsOf t.task_id,
      rank d < rank t.task_id) :
    ∀ (fuel : Nat) (completed : List String) (log : List SchedEntry),
      plan.tasks.length - completed.length < fuel →
      completed.Nodup →
      (∀ c ∈ completed, c ∈ plan.taskIds) →
      log.map (fun e => e.task.task_id) = completed →
      ∃ out, schedLoop reg now plan fuel completed log = Option.some out ∧
        out.2.map (fun e => e.task.task_id) = out.1 ∧
        out.1.length = plan.tasks.length ∧
        out.1.Nodup ∧
        (∀ i, i ∈ out.1 ↔ i ∈ plan.taskIds) := by
  have hlen : plan.taskIds.length = plan.tasks.length := by
    simp [ExecutionPlan.taskIds]
  intro fuel
  induction fuel with
  | zero =>
    intro c log h
    exact absurd h (by omega)
  | succ n ih =>
    intro c log hfuel hcnd hcsub hlog
    rw [schedLoop_succ]
    by_cases hg : c.length < plan.tasks.length
    · rw [if_pos hg]
      have hx : ∃ t ∈ plan.tasks, t.task_id ∉ c := by
        by_contra hall
        push_neg at hall
        have hsub : plan.taskIds ⊆ c := by
          intro i hi
          obtain ⟨t, ht, rfl⟩ := List.mem_map.mp hi
          exact hall t ht
        have h1 : plan.taskIds.toFinset.card ≤ c.toFinset.card :=
          Finset.card_le_card
            (fun x hxm => List.mem_toFinset.mpr (hsub (List.mem_toFinset.mp hxm)))
        have h2 := List.toFinset_card_of_nodup hnd
        have h3 := List.toFinset_card_le c
        omega
      cases hft : plan.get_next_tasks c with
      | nil => exact absurd hft (frontier_nonempty plan c rank hclosed hrank hx)
      | cons t ts =>
        have hfr : ∀ u ∈ t :: ts, u ∈ plan.tasks ∧ u.task_id ∉ c := by
          intro u hu
          have : u ∈ plan.get_next_tasks c := hft ▸ hu
          have hm := (mem_get_next_tasks plan c u).mp this
          exact ⟨hm.1, hm.2.1⟩
        have hfrsub : ((t :: ts).map Task.task_id).Sublist plan.taskIds := by
          rw [← hft]
          exact (List.filter_sublist plan.tasks).map Task.task_id
        have hfrnd : ((t :: ts).map Task.task_id).Nodup := hnd.sublist hfrsub
        have hfradd : addFrontier c (t :: ts) = c ++ (t :: ts).map Task.task_id :=
          addFrontier_eq_append (t :: ts) c (fun u hu => (hfr u hu).2) hfrnd
        have hnewnd : (addFrontier c (t :: ts)).Nodup := by
          rw [hfradd, List.nodup_append]
          refine ⟨hcnd, hfrnd, ?_⟩
          intro a ha hb
          obtain ⟨u, hu, rfl⟩ := List.mem_map.mp hb
          exact (hfr u hu).2 ha
        have hnewsub : ∀ i ∈ addFrontier c (t :: ts), i ∈ plan.taskIds := by
          intro i hi
          rw [hfradd, List.mem_append] at hi
          rcases hi with h1 | h2
          · exact hcsub i h1
          · exact hfrsub.subset h2
        have hnewlog : ((log ++ (t :: ts).map (runEntry reg now)).map
            fun e => e.task.task_id) = addFrontier c (t :: ts) := by
          rw [List.map_append, hlog, hfradd, List.map_map]
          congr 1
        have hgrow : c.length < (addFrontier c (t :: ts)).length := by
          rw [hfradd]
          simp
        exact ih (addFrontier c (t :: ts))
          (log ++ (t :: ts).map (runEntry reg now)) (by omega) hnewnd hnewsub
          hnewlog
    · rw [if_neg hg]
      have hclen : c.length = plan.tasks.length := by
        have h1 : c.toFinset.card ≤ plan.taskIds.toFinset.card :=
          Finset.card_le_card
            (fun x hxm => List.mem_toFinset.mpr (hcsub x (List.mem_toFinset.mp hxm)))
        have h2 := List.toFinset_card_of_nodup hnd
        have h3 := List.toFinset_card_of_nodup hcnd
        omega
      refine ⟨(c, log), rfl, hlog, hclen, hcnd, ?_⟩
      exact fun i => (nodup_subset_mem_iff c plan.taskIds hcnd hnd
        (fun x hx => hcsub x hx) (by omega) i)

/-- C1: for every plan with unique task ids, dependencies referring only to
the plan's tasks (the §3 data-model invariants), and an acyclic dependency
mapping (witnessed by a rank function, every prerequisite of strictly
smaller rank), with a worker registered for every task's type, the
scheduler's loop exits normally (fuel never runs out), returns exactly
`len(plan.tasks)` results, stalls nowhere (the completed set reaches the
full task count), and executes every task exactly once (the executed-id
sequence is duplicate-free and covers exactly the plan's task ids). -/
theorem scheduler_completes_acyclic_plans (reg : Registry) (now : String)
    (plan : ExecutionPlan)
    (hnd : plan.taskIds.Nodup)
    (hclosed : ∀ t ∈ plan.tasks, ∀ d ∈ plan.depsOf t.task_id, d ∈ plan.taskIds)
    (hacyc : ∃ rank : String → Nat, ∀ t ∈ plan.tasks,
      ∀ d ∈ plan.depsOf t.task_id, rank d < rank t.task_id)
    (hreg : ∀ t ∈ plan.tasks, (reg t.task_type).isSome = true) :
    (schedRun reg now plan).isSome = true ∧
    (execute_plan reg now plan).length = plan.tasks.length ∧
    (schedCompleted reg now plan).length = plan.tasks.length ∧
    (schedExecutedIds reg now plan).Nodup ∧
    (∀ i, i ∈ schedExecutedIds reg now plan ↔ i ∈ plan.taskIds) := by
  obtain ⟨rank, hrank⟩ := hacyc
  obtain ⟨out, hout, hmap, hlen, hond, hiff⟩ :=
    schedLoop_acyclic_complete reg now plan rank hnd hclosed hrank
      (plan.tasks.length + 1) [] [] (by simp) List.nodup_nil (by simp) rfl
  have hrun : schedRun reg now plan = Option.some out := hout
  have hloglen : out.2.length = plan.tasks.length := by
    have := congrArg List.length hmap
    simpa using this.trans (congrArg id hlen)
  refine ⟨by simp [hrun], ?_, ?_, ?_, ?_⟩
  · simp [execute_plan, schedLog, hrun, hloglen]
  · simp [schedCompleted, hrun, hlen]
  · simpa [schedExecutedIds, schedLog, hrun, hmap] using hond
  · intro i
    simpa [schedExecutedIds, schedLog, hrun, hmap] using hiff i

/-- Task `A` of the §8 example plan. -/
def taskA : Task := Task.make "A" TaskType.verification "step A" [] "t0"

/-- Task `B` of the §8 example plan (depends on `A`). -/
def taskB : Task := Task.make "B" TaskType.debug "step B" [] "t0"

/-- Task `C` of the §8 example plan (depends on `A`). -/
def taskC : Task := Task.make "C" TaskType.timing_analysis "step C" [] "t0"

/-- The §8 example plan: tasks `A`, `B` (dep `A`), `C` (dep `A`). -/
def planABC : ExecutionPlan :=
  { plan_id := "p1", tasks := [taskA, taskB, taskC]
    dependencies := [("A", []), ("B", ["A"]), ("C", ["A"])]
    estimated_duration := Option.none, metadata := [] }

/-- Witness for C1 on the §8 example plan with an always-succeeding worker
registered for every type. -/
theorem scheduler_completes_acyclic_plans_witness :
    (schedRun regOk "t0" planABC).isSome = true ∧
    (execute_plan regOk "t0" planABC).length = planABC.tasks.length ∧
    (schedCompleted regOk "t0" planABC).length = planABC.tasks.length ∧
    (schedExecutedIds regOk "t0" planABC).Nodup ∧
    (∀ i, i ∈ schedExecutedIds regOk "t0" planABC ↔ i ∈ planABC.taskIds) :=
  scheduler_completes_acyclic_plans regOk "t0" planABC (by decide)
    (by decide)
    ⟨fun i => if i = "A" then 0 else 1, by decide⟩
    (fun t _ => rfl)

/-- A dependency cycle inside a plan: a non-empty list of task ids of the
plan in which each id has the (cyclically) next id among its
prerequisites. -/
def ExecutionPlan.HasDepCycle (plan : ExecutionPlan) : Prop :=
  ∃ c : List String, c ≠ [] ∧ (∀ i ∈ c, i ∈ plan.taskIds) ∧
    ∀ j : Fin c.length,
      c.get ⟨(j.val + 1) % c.length,
        Nat.mod_lt _ (Nat.lt_of_le_of_lt (Nat.zero_le _) j.isLt)⟩ ∈
        plan.depsOf (c.get j)

theorem cycle_blocked (plan : ExecutionPlan) (c : List String)
    (hstep : ∀ j : Fin c.length,
      c.get ⟨(j.val + 1) % c.length,
        Nat.mod_lt _ (Nat.lt_of_le_of_lt (Nat.zero_le _) j.isLt)⟩ ∈
        plan.depsOf (c.get j)) :
    ∀ i ∈ c, ∃ d ∈ plan.depsOf i, d ∈ c := by
  intro i hi
  obtain ⟨j, hj⟩ := List.mem_iff_get.mp hi
  refine ⟨c.get ⟨(j.val + 1) % c.length,
    Nat.mod_lt _ (Nat.lt_of_le_of_lt (Nat.zero_le _) j.isLt)⟩, ?_, ?_⟩
  · rw [← hj]
    exact hstep j
  · exact List.get_mem c _ _

theorem schedLoop_cycle_avoid (reg : Registry) (now : String)
    (plan : ExecutionPlan) (C : List String)
    (hblock : ∀ i ∈ C, ∃ d ∈ plan.depsOf i, d ∈ C) :
    ∀ (fuel : Nat) (completed : List String) (log : List SchedEntry)
      (out : List String × List SchedEntry),
      (∀ i ∈ completed, i ∉ C) →
      schedLoop reg now plan fuel completed log = Option.some out →
      ∀ i ∈ out.1, i ∉ C := by
  intro fuel
  induction fuel with
  | zero =>
    intro c log out _ h
    simp [schedLoop] at h
  | succ n ih =>
    intro c log out hdisj heq
    rw [schedLoop_succ] at heq
    by_cases hg : c.length < plan.tasks.length
    · rw [if_pos hg] at heq
      cases hft : plan.get_next_tasks c with
      | nil =>
        rw [hft] at heq
        cases heq
        exact hdisj
      | cons t ts =>
        rw [hft] at heq
        refine ih _ _ out ?_ heq
        intro i hi
        rcases (mem_addFrontier (t :: ts) c i).mp hi with h1 | h2
        · exact hdisj i h1
        · obtain ⟨u, hu, rfl⟩ := List.mem_map.mp h2
          intro hinC
          obtain ⟨d, hd, hdC⟩ := hblock u.task_id hinC
          have hun : u ∈ plan.get_next_tasks c := hft ▸ hu
          have := ((mem_get_next_tasks plan c u).mp hun).2.2 d hd
          exact hdisj d this hdC
    · rw [if_neg hg] at heq
      cases heq
      exact hdisj

theorem length_filter_add_le {α : Type} (p q r : α → Bool) :
    ∀ (l : List α),
      (∀ x ∈ l, ¬(p x = true ∧ q x = true)) →
      (∀ x ∈ l, p x = true → r x = true) →
      (∀ x ∈ l, q x = true → r x = true) →
      (l.filter p).length + (l.filter q).length ≤ (l.filter r).length := by
  intro l
  induction l with
  | nil => intro _ _ _; simp
  | cons a l ih =>
    intro hdisj hp hq
    have ih2 := ih (fun x hx => hdisj x (List.mem_cons_of_mem a hx))
      (fun x hx => hp x (List.mem_cons_of_mem a hx))
      (fun x hx => hq x (List.mem_cons_of_mem a hx))
    by_cases hpa : p a = true
    · have hra := hp a (List.mem_cons_self a l) hpa
      have hqa : ¬ q a = true := fun hqa => hdisj a (List.mem_cons_self a l) ⟨hpa, hqa⟩
      simp only [List.filter_cons, hpa, hra, if_true]
      simp only [Bool.not_eq_true] at hqa
      simp only [hqa, Bool.false_eq_true, if_false, List.length_cons]
      omega
    · by_cases hqa : q a = true
      · have hra := hq a (List.mem_cons_self a l) hqa
        simp only [List.filter_cons, hqa, hra, if_true]
        simp only [Bool.not_eq_true] at hpa
        simp only [hpa, Bool.false_eq_true, if_false]
        simp only [List.length_cons]
        omega
      · simp only [Bool.not_eq_true] at hpa hqa
        simp only [List.filter_cons, hpa, hqa, Bool.false_eq_true, if_false]
        rcases hr : r a with _ | _ <;> simp [hr] <;> omega

theorem length_filter_lt {α : Type} (p : α → Bool) :
    ∀ (l : List α), (∃ x ∈ l, p x = false) →
      (l.filter p).length < l.length := by
  intro l
  induction l with
  | nil => rintro ⟨x, hx, _⟩; cases hx
  | cons a l ih =>
    rintro ⟨x, hx, hpx⟩
    have hfle := List.length_filter_le p l
    rcases List.mem_cons.mp hx with rfl | hx2
    · simp only [List.filter_cons, hpx, Bool.false_eq_true, if_false,
        List.length_cons]
      omega
    · have := ih ⟨x, hx2, hpx⟩
      rcases hpa : p a with _ | _ <;>
        simp only [List.filter_cons, hpa, Bool.false_eq_true, if_false,
          if_true, List.length_cons] <;> omega

/-- Number of task occurrences of the plan whose id is in `c`. -/
def countOcc (plan : ExecutionPlan) (c : List String) : Nat :=
  (plan.tasks.filter fun t => decide (t.task_id ∈ c)).length

theorem schedLoop_count (reg : Registry) (now : String) (plan : ExecutionPlan) :
    ∀ (fuel : Nat) (completed : List String) (log : List SchedEntry)
      (out : List String × List SchedEntry),
      log.length ≤ countOcc plan completed →
      schedLoop reg now plan fuel completed log = Option.some out →
      out.2.length ≤ countOcc plan out.1 := by
  intro fuel
  induction fuel with
  | zero =>
    intro c log out _ h
    simp [schedLoop] at h
  | succ n ih =>
    intro c log out hcnt heq
    rw [schedLoop_succ] at heq
    by_cases hg : c.length < plan.tasks.length
    · rw [if_pos hg] at heq
      cases hft : plan.get_next_tasks c with
      | nil =>
        rw [hft] at heq
        cases heq
        exact hcnt
      | cons t ts =>
        rw [hft] at heq
        refine ih _ _ out ?_ heq
        have hkey : countOcc plan c + (t :: ts).length ≤
            countOcc plan (addFrontier c (t :: ts)) := by
          have hfr := length_filter_add_le
            (fun u => decide (u.task_id ∈ c))
            (fun u => !c.contains u.task_id &&
              (plan.depsOf u.task_id).all fun d => c.contains d)
            (fun u => decide (u.task_id ∈ addFrontier c (t :: ts)))
            plan.tasks ?_ ?_ ?_
          · have hflt : plan.tasks.filter (fun u => !c.contains u.task_id &&
                (plan.depsOf u.task_id).all fun d => c.contains d) = t :: ts := hft
            rw [hflt] at hfr
            exact hfr
          · intro x _ hcon
            obtain ⟨h1, h2⟩ := hcon
            rw [decide_eq_true_iff] at h1
            have := (Bool.and_eq_true _ _).mp h2
            simp [List.elem_iff] at this
            exact this.1 h1
          · intro x _ hx
            rw [decide_eq_true_iff] at hx ⊢
            exact (mem_addFrontier (t :: ts) c x.task_id).mpr (Or.inl hx)
          · intro x hx hpx
            rw [decide_eq_true_iff]
            refine (mem_addFrontier (t :: ts) c x.task_id).mpr (Or.inr ?_)
            have hxf : x ∈ plan.get_next_tasks c :=
              List.mem_filter.mpr ⟨hx, hpx⟩
            rw [hft] at hxf
            exact List.mem_map.mpr ⟨x, hxf, rfl⟩
        simp only [List.length_append, List.length_map]
        omega
    · rw [if_neg hg] at heq
      cases heq
      exact hcnt

/-- C2 (amended): for every plan containing a dependency cycle the
scheduler's loop still exits normally (terminates) and returns strictly
fewer results than `len(plan.tasks)` — but the returned value is the bare
result list: the only observable stall signal is the count shortfall, no
explicit stall indicator is carried (see the counterexample theorem). -/
theorem scheduler_stalls_on_cycles (reg : Registry) (now : String)
    (plan : ExecutionPlan) (hcyc : plan.HasDepCycle) :
    (schedRun reg now plan).isSome = true ∧
    (execute_plan reg now plan).length < plan.tasks.length := by
  obtain ⟨c, hne, hidm, hstep⟩ := hcyc
  have hblock := cycle_blocked plan c hstep
  have hs := schedLoop_isSome reg now plan (plan.tasks.length + 1) [] []
    (by simp)
  obtain ⟨out, hout⟩ := Option.isSome_iff_exists.mp hs
  have hrun : schedRun reg now plan = Option.some out := hout
  have havoid := schedLoop_cycle_avoid reg now plan c hblock
    (plan.tasks.length + 1) [] [] out (by simp) hout
  have hcount := schedLoop_count reg now plan (plan.tasks.length + 1) [] []
    out (by simp [countOcc]) hout
  refine ⟨by simp [hrun], ?_⟩
  obtain ⟨i0, hi0⟩ := List.exists_mem_of_ne_nil c hne
  obtain ⟨t0, ht0, ht0id⟩ := List.mem_map.mp (hidm i0 hi0)
  have hlt : countOcc plan out.1 < plan.tasks.length := by
    refine length_filter_lt _ plan.tasks ⟨t0, ht0, ?_⟩
    rw [decide_eq_false_iff_not]
    intro hmem
    exact havoid t0.task_id hmem (ht0id ▸ hi0)
  have : (execute_plan reg now plan).length = out.2.length := by
    simp [execute_plan, schedLog, hrun]
  omega

/-- Cyclic plan of §8's last example: tasks `A` and `B`, each depending on
the other. -/
def planCyc : ExecutionPlan :=
  { plan_id := "p2", tasks := [taskA, taskB]
    dependencies := [("A", ["B"]), ("B", ["A"])]
    estimated_duration := Option.none, metadata := [] }

/-- The empty plan (no tasks): the scheduler completes it normally. -/
def planEmpty : ExecutionPlan :=
  { plan_id := "p0", tasks := [], dependencies := []
    estimated_duration := Option.none, metadata := [] }

/-- C2 counterexample: the return value of `execute_plan` carries no stall
indicator.  The cyclic two-task plan stalls immediately and returns `[]`,
which is exactly the value returned for the empty plan that completes
normally — the two outcomes are indistinguishable from the returned value,
refuting the claim that the returned value carries an explicit stall
indicator distinguishing partial from normal completion. -/
theorem stall_indicator_counterexample :
    execute_plan regOk "t0" planCyc = execute_plan regOk "t0" planEmpty ∧
    execute_plan regOk "t0" planCyc = [] ∧
    planCyc.tasks.length = 2 ∧
    planEmpty.tasks.length = 0 :=
  ⟨rfl, rfl, rfl, rfl⟩

/-- Witness for C2's amended theorem on the concrete cyclic plan. -/
theorem scheduler_stalls_on_cycles_witness :
    (schedRun regOk "t0" planCyc).isSome = true ∧
    (execute_plan regOk "t0" planCyc).length < planCyc.tasks.length :=
  scheduler_stalls_on_cycles regOk "t0" planCyc
    ⟨["A", "B"], by decide, by decide, by decide⟩

theorem planSubTaskIds_eq (task : Task) (planId now : String) :
    planSubTaskIds task planId now =
      (planSuffixes task.task_type).map fun s => task.task_id ++ s := by
  cases htt : task.task_type <;>
    simp [planSubTaskIds, create_execution_plan, htt, ExecutionPlan.taskIds,
      planTimingAnalysis, planRtlModification, planScriptTuning,
      planVerification, planPowerOptimization, planDebug, Task.make,
      Task.task_id, planSuffixes]

theorem planSuffixes_subset (ty : TaskType) :
    ∀ s ∈ planSuffixes ty, s ∈ allPlanSuffixes := by
  cases ty <;> decide

theorem suffix_unique :
    ∀ s1 ∈ allPlanSuffixes, ∀ s2 ∈ allPlanSuffixes,
      s2.data <:+ s1.data → s2 = s1 := by
  decide

theorem append_suffix_ne (p1 p2 s1 s2 : String)
    (hs1 : s1 ∈ allPlanSuffixes) (hs2 : s2 ∈ allPlanSuffixes)
    (hp : p1 ≠ p2) : p1 ++ s1 ≠ p2 ++ s2 := by
  intro h
  have hd : p1.data ++ s1.data = p2.data ++ s2.data := congrArg String.data h
  rcases List.append_eq_append_iff.mp hd with ⟨a, ha1, ha2⟩ | ⟨a, ha1, ha2⟩
  · have hsuf : s2.data <:+ s1.data := ⟨a, ha2.symm⟩
    have heq := suffix_unique s1 hs1 s2 hs2 hsuf
    rw [heq] at ha2
    have hal : a = [] := by
      have := congrArg List.length ha2
      simp at this
      exact this
    rw [hal, List.append_nil] at ha1
    exact hp (String.ext ha1.symm)
  · have hsuf : s1.data <:+ s2.data := ⟨a, ha2.symm⟩
    have heq := suffix_unique s2 hs2 s1 hs1 hsuf
    rw [heq] at ha2
    have hal : a = [] := by
      have := congrArg List.length ha2
      simp at this
      exact this
    rw [hal, List.append_nil] at ha1
    exact hp (String.ext ha1)

/-- C7: the planner derives every sub-task id as the parent task id plus a
fixed per-step suffix determined only by the task type, so (a) planning a
root task with the same id and type again yields the same sub-task id list,
(b) plans for two distinct root task ids have disjoint sub-task id sets
(no suffix in the fixed table is a proper suffix of another), and (c) every
produced plan is a chain of 1 to 4 sub-tasks whose dependency mapping gives
the first sub-task no prerequisite and every later sub-task exactly its
predecessor. -/
theorem planner_id_and_chain_properties (t1 t2 : Task)
    (pid1 pid2 now1 now2 : String) :
    planSubTaskIds t1 pid1 now1 =
      ((planSuffixes t1.task_type).map fun s => t1.task_id ++ s) ∧
    (t1.task_id = t2.task_id → t1.task_type = t2.task_type →
      planSubTaskIds t1 pid1 now1 = planSubTaskIds t2 pid2 now2) ∧
    (t1.task_id ≠ t2.task_id →
      ∀ i ∈ planSubTaskIds t1 pid1 now1, i ∉ planSubTaskIds t2 pid2 now2) ∧
    1 ≤ (create_execution_plan t1 pid1 now1).tasks.length ∧
    (create_execution_plan t1 pid1 now1).tasks.length ≤ 4 ∧
    (create_execution_plan t1 pid1 now1).dependencies =
      chainDepsAll (create_execution_plan t1 pid1 now1).taskIds := by
  refine ⟨planSubTaskIds_eq t1 pid1 now1, ?_, ?_, ?_, ?_, ?_⟩
  · intro hid hty
    rw [planSubTaskIds_eq, planSubTaskIds_eq, hid, hty]
  · intro hne i hi hcon
    rw [planSubTaskIds_eq] at hi hcon
    obtain ⟨s1, hs1, rfl⟩ := List.mem_map.mp hi
    obtain ⟨s2, hs2, heq⟩ := List.mem_map.mp hcon
    exact append_suffix_ne t2.task_id t1.task_id s2 s1
      (planSuffixes_subset t2.task_type s2 hs2)
      (planSuffixes_subset t1.task_type s1 hs1)
      (Ne.symm hne) heq
  · cases htt : t1.task_type <;>
      simp [create_execution_plan, htt, planTimingAnalysis,
        planRtlModification, planScriptTuning, planVerification,
        planPowerOptimization, planDebug]
  · cases htt : t1.task_type <;>
      simp [create_execution_plan, htt, planTimingAnalysis,
        planRtlModification, planScriptTuning, planVerification,
        planPowerOptimization, planDebug]
  · cases htt : t1.task_type <;>
      simp [create_execution_plan, htt, planTimingAnalysis,
        planRtlModification, planScriptTuning, planVerification,
        planPowerOptimization, planDebug, ExecutionPlan.taskIds, Task.make,
        Task.task_id, chainDepsAll, chainDeps]

/-- Root task used for the C7 witness (timing-analysis type). -/
def taskRoot1 : Task := Task.make "t1" TaskType.timing_analysis "root one" [] "t0"

/-- Second root task used for the C7 witness (debug type, distinct id). -/
def taskRoot2 : Task := Task.make "t2" TaskType.debug "root two" [] "t0"

/-- Witness for C7 at two concrete root tasks with distinct ids. -/
theorem planner_id_and_chain_properties_witness :
    planSubTaskIds taskRoot1 "pA" "tA" =
      ((planSuffixes taskRoot1.task_type).map fun s => taskRoot1.task_id ++ s) ∧
    planSubTaskIds taskRoot1 "pA" "tA" = planSubTaskIds taskRoot1 "pB" "tB" ∧
    (∀ i ∈ planSubTaskIds taskRoot1 "pA" "tA",
      i ∉ planSubTaskIds taskRoot2 "pB" "tB") ∧
    1 ≤ (create_execution_plan taskRoot1 "pA" "tA").tasks.length ∧
    (create_execution_plan taskRoot1 "pA" "tA").tasks.length ≤ 4 ∧
    (create_execution_plan taskRoot1 "pA" "tA").dependencies =
      chainDepsAll (create_execution_plan taskRoot1 "pA" "tA").taskIds :=
  ⟨(planner_id_and_chain_properties taskRoot1 taskRoot2 "pA" "pB" "tA" "tB").1,
   (planner_id_and_chain_properties taskRoot1 taskRoot1 "pA" "pB" "tA" "tB").2.1
     rfl rfl,
   (planner_id_and_chain_properties taskRoot1 taskRoot2 "pA" "pB" "tA" "tB").2.2.1
     (by decide),
   (planner_id_and_chain_properties taskRoot1 taskRoot2 "pA" "pB" "tA" "tB").2.2.2.1,
   (planner_id_and_chain_properties taskRoot1 taskRoot2 "pA" "pB" "tA" "tB").2.2.2.2.1,
   (planner_id_and_chain_properties taskRoot1 taskRoot2 "pA" "pB" "tA" "tB").2.2.2.2.2⟩

/-- Witness for C3 at a concrete plan, comparing an all-succeeding registry
against an always-raising one. -/
theorem scheduler_completion_semantics_witness :
    schedCompleted regOk "t0" planABC = schedCompleted regBoom "t1" planABC ∧
    schedExecutedIds regOk "t0" planABC = schedExecutedIds regBoom "t1" planABC ∧
    ((schedLog regOk "t0" planABC).all fun e =>
      decide (e.status =
        if e.result.success then TaskStatus.completed
        else TaskStatus.failed)) = true ∧
    ((schedLog regOk "t0" planABC).all fun e =>
      (schedCompleted regOk "t0" planABC).contains e.task.task_id) = true :=
  scheduler_completion_semantics planABC regOk regBoom "t0" "t1"

/-- Witness for C6's amended theorem at a concrete one-element result
list. -/
theorem aggregation_characterization_witness :
    ((supervisorAggregate "p" "t" [cexResult]).success = true ↔
      ∀ r ∈ [cexResult], r.success = true) ∧
    (supervisorAggregate "p" "t" [cexResult]).summary =
      "Completed " ++ toString [cexResult].length ++ " sub-tasks" ∧
    (supervisorAggregate "p" "t" [cexResult]).errors = [] ∧
    (supervisorAggregate "p" "t" [cexResult]).warnings = [] ∧
    (supervisorAggregate "p" "t" [cexResult]).recommendations = [] ∧
    ((mainAggregate "tk" "p" "t" [cexResult]).success = true ↔
      ∀ r ∈ [cexResult], r.success = true) ∧
    (mainAggregate "tk" "p" "t" [cexResult]).summary =
      "Executed " ++ toString [cexResult].length ++ " tasks" ∧
    (mainAggregate "tk" "p" "t" [cexResult]).errors =
      ([cexResult].map fun r => r.errors).flatten ∧
    (mainAggregate "tk" "p" "t" [cexResult]).warnings =
      ([cexResult].map fun r => r.warnings).flatten ∧
    (mainAggregate "tk" "p" "t" [cexResult]).recommendations =
      ([cexResult].map fun r => r.recommendations).flatten :=
  aggregation_characterization "tk" "p" "t" [cexResult]

/-- Witness for C8 at concrete values of all three serialized types. -/
theorem serialization_roundtrip_witness :
    Task.from_dict taskW.to_dict = Option.some taskW ∧
    ExecutionPlan.from_dict planABC.to_dict = Option.some planABC ∧
    AnalysisResult.from_dict cexResult.to_dict = Option.some cexResult :=
  ⟨serialization_roundtrip.1 taskW, serialization_roundtrip.2.1 planABC,
   serialization_roundtrip.2.2 cexResult⟩

/-- Witness for C10 at the budgets 0 and 1. -/
theorem feedback_requires_positive_budget_witness :
    ((FeedbackLoop.run 0 processAF fixOk taskW "t0").outcome =
      Except.error FLError.unboundLocal ↔ (0 : Int) ≤ 0) ∧
    ((∃ r, (FeedbackLoop.run 1 processAF fixOk taskW "t0").outcome =
      Except.ok r) ↔ (1 : Int) ≤ 1) :=
  ⟨(feedback_requires_positive_budget 0 processAF fixOk taskW "t0").1,
   (feedback_requires_positive_budget 1 processAF fixOk taskW "t0").2⟩

end RTLAgent
